import Mathlib

/-!
# Flappy Card: the game core of `script.js`

A shallow embedding of the `Game` class of `script.js` (state, physics, obstacle
generator, collision test, scoring and run lifecycle) together with theorems about it.

Modelling conventions.

* JavaScript numbers are modelled by rationals `ℚ` (exact arithmetic); the integer
  valued fields `score`, `bestScore`, `frames` are `Nat`, the canvas size is `Int`.
* `Math.random()` is modelled by a stream of draws carried in the state
  (`Game.random`); each call takes the head of the stream.
* A `TypeError` raised by dereferencing `this.card === null` is the result `none`.
* The DOM, the canvas drawing routines and the `SoundManager` are external
  collaborators and have no effect on the modelled state; `localStorage` is the
  field `Game.stored`.
-/

namespace FlappyCard

/-! ## Data model -/

/-- The player object created by `resetGameEntities` (`this.card`). -/
structure Card where
  x : ℚ
  y : ℚ
  width : ℚ
  height : ℚ
  velocity : ℚ
  gravity : ℚ
  jumpStrength : ℚ
  rotation : ℚ
  rank : String
  suit : String
  isFaceUp : Bool
  backVariant : Int

/-- An obstacle object as created by `spawnObstacle`. -/
structure Obstacle where
  x : ℚ
  width : ℚ
  topHeight : ℚ
  gap : ℚ
  passed : Bool
  hasRabbit : Bool

/-- The fields of the `Game` object that the game logic reads or writes.
`stored` is the `localStorage` entry `flappyCardBest`; `random` is the sequence of
values that the coming calls of `Math.random()` return. -/
structure Game where
  width : Int
  height : Int
  isRunning : Bool
  isGameOver : Bool
  score : Nat
  bestScore : Nat
  frames : Nat
  speed : ℚ
  card : Option Card
  obstacles : List Obstacle
  stored : Option Nat
  random : Nat → ℚ

/-! ## Operations -/

/-- One call of `Math.random()`: the head of the stream, and the state with the
rest of the stream. -/
def mathRandom (g : Game) : ℚ × Game :=
  (g.random 0, { g with random := fun n => g.random (n + 1) })

/-- The double nearest to `Math.PI / 4`, used only for the display rotation. -/
def piOver4 : ℚ := 7853981633974483 / 10000000000000000

/-- Method `resetGameEntities()`: score, frame counter, speed and obstacles are
reset and a new card is created at half the field height. -/
def resetGameEntities (g : Game) : Game :=
  { g with
    score := 0
    frames := 0
    speed := 22 / 10
    obstacles := []
    card := some {
        x := 50
        y := (g.height : ℚ) / 2
        width := 40
        height := 56
        velocity := 0
        gravity := 2 / 10
        jumpStrength := -(45 / 10)
        rotation := 0
        rank := "A"
        suit := "♥"
        isFaceUp := true
        backVariant := 0 } }

/-- Method `gameOver()`: clears the running flag, sets the game-over flag and, when the
current score is greater than the best score, records it and writes it to storage. -/
def gameOver (g : Game) : Game :=
  let g1 := { g with isRunning := false, isGameOver := true }
  if g1.score > g1.bestScore then
    { g1 with bestScore := g1.score, stored := some g1.score }
  else g1

/-- Method `checkCollision(card, obs)`: the card against the top and the bottom part
of the obstacle. -/
def checkCollision (card : Card) (obs : Obstacle) : Bool :=
  let hitTop :=
    decide (card.x < obs.x + obs.width) &&
    decide (card.x + card.width > obs.x) &&
    decide (card.y < obs.topHeight)
  let hitBottom :=
    decide (card.x < obs.x + obs.width) &&
    decide (card.x + card.width > obs.x) &&
    decide (card.y + card.height > obs.topHeight + obs.gap)
  hitTop || hitBottom

/-- Method `spawnObstacle()`: two draws, the first for `topHeight`, the second for the
decorative flag; the new obstacle is pushed at the end of the sequence. -/
def spawnObstacle (g : Game) : Game :=
  let gapHeight : Int := 170
  let minHeight : Int := 80
  let maxTopHeight : Int := g.height - gapHeight - minHeight
  let d1 := mathRandom g
  let topHeight : Int := Int.floor (d1.1 * ((maxTopHeight - minHeight + 1 : Int) : ℚ)) + minHeight
  let d2 := mathRandom d1.2
  let obstacle : Obstacle :=
    { x := (g.width : ℚ)
      width := 60
      topHeight := (topHeight : ℚ)
      gap := (gapHeight : ℚ)
      passed := false
      hasRabbit := decide (d2.1 > 7 / 10) }
  { d2.2 with obstacles := d2.2.obstacles ++ [obstacle] }

/-- Array indexing `xs[i]` on an array of strings; an index outside the array
gives `undefined`. -/
def stringAt (xs : List String) (i : Int) : String :=
  if 0 ≤ i then xs.getD i.toNat "undefined" else "undefined"

/-- The `ranks` table of `changeCardSuit`. -/
def ranks : List String :=
  ["A", "K", "Q", "J", "10", "9", "8", "7", "6", "5", "4", "3", "2"]

/-- The `suits` table of `changeCardSuit`. -/
def suits : List String := ["♥", "♠", "♦", "♣"]

/-- Method `changeCardSuit()`: cosmetic change of the card on a scored obstacle. -/
def changeCardSuit (g : Game) : Option Game :=
  let d1 := mathRandom g
  if d1.1 < 3 / 10 then
    match d1.2.card with
    | none => none
    | some c =>
      let d2 := mathRandom d1.2
      some { d2.2 with card := some { c with isFaceUp := false, backVariant := Int.floor (d2.1 * 3) } }
  else
    match d1.2.card with
    | none => none
    | some c =>
      let d2 := mathRandom d1.2
      let d3 := mathRandom d2.2
      let c1 : Card :=
        { c with
          isFaceUp := true
          rank := stringAt ranks (Int.floor (d2.1 * 13))
          suit := stringAt suits (Int.floor (d3.1 * 4)) }
      some { d3.2 with card := some c1 }

/-- Method `handleInput()`: the jump command, ignored when the game is not running. -/
def handleInput (g : Game) : Option Game :=
  if !g.isRunning then some g
  else
    match g.card with
    | none => none
    | some c => some { g with card := some { c with velocity := c.jumpStrength } }

/-- The body of the `forEach` callback of `update` for the obstacle object `obs`,
up to but not including the removal test. `obs` is the object stored in the array,
so the result carries its mutated value next to the new game state. -/
def obstacleBody (obs : Obstacle) (g : Game) : Option (Obstacle × Game) :=
  let obs1 : Obstacle := { obs with x := obs.x - g.speed }
  match g.card with
  | none => none
  | some card =>
    let g1 := if checkCollision card obs1 then gameOver g else g
    if !obs1.passed && decide (card.x > obs1.x + obs1.width) then
      let obs2 : Obstacle := { obs1 with passed := true }
      let g2 : Game := { g1 with score := g1.score + 1 }
      match changeCardSuit g2 with
      | none => none
      | some g3 =>
        let g4 : Game := if g3.score % 5 = 0 then { g3 with speed := g3.speed + 1 / 10 } else g3
        some (obs2, g4)
    else some (obs1, g1)

/-- The `forEach` callback `(obs, index) => ...` of `update`: the body, the write
of the mutated object at position `index`, and `splice(index, 1)` when the
obstacle has left the field. -/
def obstacleCallback (obs : Obstacle) (index : Nat) (g : Game) : Option Game :=
  match obstacleBody obs g with
  | none => none
  | some (obs1, g1) =>
    if obs1.x + obs1.width < 0 then
      some { g1 with obstacles := (g1.obstacles.set index obs1).eraseIdx index }
    else
      some { g1 with obstacles := g1.obstacles.set index obs1 }

/-- The loop of `Array.prototype.forEach` on `this.obstacles`, from index `k` with `n` indices
still to visit: the length is read once before the loop, and an index that is no
longer present in the array when it is reached is passed over. -/
def forEachFrom : Nat → Nat → Game → Option Game
  | 0, _, g => some g
  | n + 1, k, g =>
    match g.obstacles[k]? with
    | none => forEachFrom n (k + 1) g
    | some obs =>
      match obstacleCallback obs k g with
      | none => none
      | some g1 => forEachFrom n (k + 1) g1

/-- Method `update()`: one simulation tick. -/
def update (g : Game) : Option Game :=
  let g0 : Game := { g with frames := g.frames + 1 }
  match g0.card with
  | none => none
  | some c =>
    let c1 : Card := { c with velocity := c.velocity + c.gravity }
    let c2 : Card := { c1 with y := c1.y + c1.velocity }
    let c3 : Card := { c2 with rotation := min piOver4 (max (-piOver4) (c2.velocity * (1 / 10))) }
    let g1 : Game := { g0 with card := some c3 }
    let g2 := if c3.y + c3.height ≥ (g1.height : ℚ) ∨ c3.y < 0 then gameOver g1 else g1
    let g3 := if g2.frames % 120 = 0 then spawnObstacle g2 else g2
    forEachFrom g3.obstacles.length 0 g3

/-- Method `loop()`: one tick when the game is running (drawing and the request for the
next animation frame do not change the state). -/
def loop (g : Game) : Option Game :=
  if g.isRunning then update g else some g

/-- Method `start()`: resets the entities, sets the flags and enters the loop, which
runs the first tick at once. -/
def start (g : Game) : Option Game :=
  let g1 := resetGameEntities g
  let g2 : Game := { g1 with isRunning := true }
  let g3 : Game := { g2 with isGameOver := false }
  loop g3

/-- Method `reset()`: hides the game-over screen and calls `start()`. -/
def reset (g : Game) : Option Game :=
  start g

/-- The state built by the constructor of `Game` for a canvas of the given size,
with the best score read from storage (`0` when there is none). -/
def newGame (width height : Int) (stored : Option Nat) (random : Nat → ℚ) : Game :=
  { width := width
    height := height
    isRunning := false
    isGameOver := false
    score := 0
    bestScore := stored.getD 0
    frames := 0
    speed := 3
    card := none
    obstacles := []
    stored := stored
    random := random }

/-! ### Ghost trace of the obstacle pass -/

/-- The obstacle pass of `forEachFrom` together with the list of the visits it
makes: each visit is the obstacle object as the callback received it and as the
callback left it. -/
def forEachTrace : Nat → Nat → Game → Option (Game × List (Obstacle × Obstacle))
  | 0, _, g => some (g, [])
  | n + 1, k, g =>
    match g.obstacles[k]? with
    | none => forEachTrace n (k + 1) g
    | some obs =>
      match obstacleBody obs g, obstacleCallback obs k g with
      | some (obs1, _), some g1 =>
        match forEachTrace n (k + 1) g1 with
        | none => none
        | some (g2, tr) => some (g2, (obs, obs1) :: tr)
      | _, _ => none

/-! ### Auxiliary definitions for the statements -/

/-- The part of `update()` that runs before the obstacle pass: frame counter, card
physics, boundary test and spawn. -/
def beforeObstacles (g : Game) : Option Game :=
  let g0 : Game := { g with frames := g.frames + 1 }
  match g0.card with
  | none => none
  | some c =>
    let c1 : Card := { c with velocity := c.velocity + c.gravity }
    let c2 : Card := { c1 with y := c1.y + c1.velocity }
    let c3 : Card := { c2 with rotation := min piOver4 (max (-piOver4) (c2.velocity * (1 / 10))) }
    let g1 : Game := { g0 with card := some c3 }
    let g2 := if c3.y + c3.height ≥ (g1.height : ℚ) ∨ c3.y < 0 then gameOver g1 else g1
    let g3 := if g2.frames % 120 = 0 then spawnObstacle g2 else g2
    some g3

/-- One tick with the ghost trace of the obstacle pass: the state `update` returns
and the list of visits made by the `forEach` callback. -/
def updateTrace (g : Game) : Option (Game × List (Obstacle × Obstacle)) :=
  match beforeObstacles g with
  | none => none
  | some g3 => forEachTrace g3.obstacles.length 0 g3

/-- The collision test of the callback body on the moved obstacle: `gameOver()`
when the card collides with it. -/
def collisionStep (c : Card) (obs : Obstacle) (g : Game) : Game :=
  if checkCollision c { obs with x := obs.x - g.speed } then gameOver g else g

/-- A visit of the obstacle pass in which the `passed` flag of the obstacle went
from false to true. -/
def flagRaised (p : Obstacle × Obstacle) : Bool :=
  !p.1.passed && p.2.passed

/-- The card after the physics step of `update()`: gravity is added to the
velocity, then the new velocity is added to the height `y`. -/
def cardAfterPhysics (c : Card) : Card :=
  { c with
    velocity := c.velocity + c.gravity
    y := c.y + (c.velocity + c.gravity)
    rotation := min piOver4 (max (-piOver4) ((c.velocity + c.gravity) * (1 / 10))) }

/-- The boundary test of `update()` on the card after the physics step. -/
def hitsBoundary (g : Game) (c : Card) : Prop :=
  (cardAfterPhysics c).y + (cardAfterPhysics c).height ≥ (g.height : ℚ) ∨
    (cardAfterPhysics c).y < 0

instance (g : Game) (c : Card) : Decidable (hitsBoundary g c) := by
  unfold hitsBoundary; infer_instance

/-- The state after `n` consecutive calls of `update()`. -/
def ticks : Nat → Game → Option Game
  | 0, g => some g
  | n + 1, g =>
    match update g with
    | none => none
    | some g1 => ticks n g1

/-- The fields of the card that take part in physics and collision. -/
def Card.physics (c : Card) : ℚ × ℚ × ℚ × ℚ × ℚ × ℚ × ℚ :=
  (c.x, c.y, c.width, c.height, c.velocity, c.gravity, c.jumpStrength)

/-- What the obstacle pass may change between two states of one tick: the frame
counter, the field size and the physical fields of the card are kept; the score
does not decrease; the speed grows by `1/10` for every multiple of 5 the score
reaches; a run that is over stays over; the best score does not decrease and is
bounded by the larger of the old best score and the new score. -/
structure Evolves (g g1 : Game) : Prop where
  frames_eq : g1.frames = g.frames
  height_eq : g1.height = g.height
  width_eq : g1.width = g.width
  card_eq : g1.card.map Card.physics = g.card.map Card.physics
  score_le : g.score ≤ g1.score
  speed_eq : g1.speed = g.speed + ((g1.score / 5 - g.score / 5 : Nat) : ℚ) / 10
  running_le : g1.isRunning = true → g.isRunning = true
  over_le : g.isGameOver = true → g1.isGameOver = true
  best_le : g.bestScore ≤ g1.bestScore
  best_bound : g1.bestScore ≤ max g.bestScore g1.score

/-- The number of obstacles of a sequence whose `passed` flag is false: the
obstacles that can still be scored. -/
def unpassedCount (l : List Obstacle) : Nat :=
  l.countP (fun o => !o.passed)

/-- The removal test of the callback: the obstacle has left the field on the
left. -/
def leftField (o : Obstacle) : Bool :=
  decide (o.x + o.width < 0)

/-! ### Sample states -/

/-- A card of the size used by the game, at horizontal position `x` and height `y`. -/
def sampleCard (x y : ℚ) : Card :=
  { x := x, y := y, width := 40, height := 56, velocity := 0, gravity := 2 / 10,
    jumpStrength := -(45 / 10), rotation := 0, rank := "A", suit := "♥",
    isFaceUp := true, backVariant := 0 }

/-- An obstacle of the size used by the game, at horizontal position `x`, with the
given top height and `passed` flag. -/
def sampleObstacle (x topHeight : ℚ) (passed : Bool) : Obstacle :=
  { x := x, width := 60, topHeight := topHeight, gap := 170, passed := passed,
    hasRabbit := false }

/-- A state in the middle of a run: running, not over, with the given field
height, card, obstacles, score, best score and frame counter, the initial speed,
and every coming random draw equal to `r`. -/
def runningGame (height : Int) (card : Card) (obstacles : List Obstacle)
    (score best frames : Nat) (r : ℚ) : Game :=
  { width := 320
    height := height
    isRunning := true
    isGameOver := false
    score := score
    bestScore := best
    frames := frames
    speed := 22 / 10
    card := some card
    obstacles := obstacles
    stored := none
    random := fun _ => r }

/-- A running state on a field of height 400 with score 4, 749 frames into the
run, in which the card, at height 200 inside the gap, is about to pass the unpassed
obstacle at `x = -10`; the next obstacle follows at `x = 254`. -/
def passingState : Game :=
  runningGame 400 (sampleCard 50 200)
    [sampleObstacle (-10) 100 false, sampleObstacle 254 120 false] 4 0 749 (1 / 2)

/-- A running state on a field of height 400 whose card reaches `y = 396` in the
next physics step. -/
def boundaryState : Game :=
  runningGame 400 (sampleCard 50 (3958 / 10)) [] 0 0 7 (1 / 2)

/-- A game-over state on a field of height 400: score 7, speed `2.3`, 500 frames
and one obstacle still in the sequence. -/
def overState : Game :=
  { width := 320
    height := 400
    isRunning := false
    isGameOver := true
    score := 7
    bestScore := 7
    frames := 500
    speed := 23 / 10
    card := some (sampleCard 50 350)
    obstacles := [sampleObstacle 30 100 false]
    stored := some 7
    random := fun _ => 1 / 2 }

/-- The state `overState` on a field of height 100. -/
def overStateSmall : Game :=
  { overState with height := 100 }

/-- A running state on a field of height 200 with score 0 and best score 0, 269
frames into the run: in the next tick the falling card, which is inside the gap of
the first obstacle, reaches the bottom of the field while that obstacle moves past
its left edge. -/
def lateScoreState : Game :=
  runningGame 200 { sampleCard 50 140 with velocity := 43 / 10 }
    [sampleObstacle (-10) 50 false, sampleObstacle 254 60 false] 0 0 269 (1 / 2)

/-- A running state on a field of height 400, 291 frames into the run, with score
1: the first obstacle, already passed, leaves the field in the next tick
(`x + width` goes from `1.6` to `-0.6`), and the second obstacle follows it in the
sequence at `x = 205.6`. -/
def skipState : Game :=
  runningGame 400 (sampleCard 50 200)
    [sampleObstacle (-(292 / 5)) 100 true, sampleObstacle (1028 / 5) 120 false] 1 0 291 (1 / 2)

/-- A running state on a field of height 400, 259 frames into the run, with score
0: after the next move the only obstacle has its right edge at `69.8`, between the
left edge `50` and the right edge `90` of the card, which is inside the gap. -/
def edgeState : Game :=
  runningGame 400 (sampleCard 50 200) [sampleObstacle 12 100 false] 0 0 259 (1 / 2)

/-! # Theorems -/

/-! ## Collision test -/

/-- C1: `checkCollision(card, obs)` is true exactly when the card overlaps the
obstacle horizontally (both comparisons strict) and its top edge is above the gap
or its bottom edge below it (both strict); exact edge contact, horizontal or
vertical, does not collide. -/
theorem checkCollision_iff_strict_overlap (card : Card) (obs : Obstacle) :
    (checkCollision card obs = true ↔
      card.x < obs.x + obs.width ∧ card.x + card.width > obs.x ∧
        (card.y < obs.topHeight ∨ card.y + card.height > obs.topHeight + obs.gap)) ∧
    (card.x + card.width = obs.x → checkCollision card obs = false) ∧
    (card.x = obs.x + obs.width → checkCollision card obs = false) ∧
    (card.y = obs.topHeight → card.y + card.height ≤ obs.topHeight + obs.gap →
      checkCollision card obs = false) ∧
    (card.y + card.height = obs.topHeight + obs.gap → card.y ≥ obs.topHeight →
      checkCollision card obs = false) := by
  have key : checkCollision card obs = true ↔
      card.x < obs.x + obs.width ∧ card.x + card.width > obs.x ∧
        (card.y < obs.topHeight ∨ card.y + card.height > obs.topHeight + obs.gap) := by
    simp only [checkCollision, Bool.or_eq_true, Bool.and_eq_true, decide_eq_true_eq]
    tauto
  refine ⟨key, ?_, ?_, ?_, ?_⟩
  · intro h
    rw [← Bool.not_eq_true, key]
    rintro ⟨-, h2, -⟩
    exact absurd h2 (by rw [h]; exact lt_irrefl _)
  · intro h
    rw [← Bool.not_eq_true, key]
    rintro ⟨h1, -, -⟩
    exact absurd h1 (by rw [h]; exact lt_irrefl _)
  · intro h1 h2
    rw [← Bool.not_eq_true, key]
    rintro ⟨-, -, h3 | h3⟩
    · exact absurd h3 (by rw [h1]; exact lt_irrefl _)
    · exact absurd h3 (not_lt.mpr h2)
  · intro h1 h2
    rw [← Bool.not_eq_true, key]
    rintro ⟨-, -, h3 | h3⟩
    · exact absurd h3 (not_lt.mpr h2)
    · exact absurd h3 (by rw [h1]; exact lt_irrefl _)

/-- Witness for C1: a card whose right edge is exactly on the obstacle's left edge
does not collide, although it is far above the gap. -/
theorem checkCollision_iff_strict_overlap_witness :
    (sampleCard 50 10).x + (sampleCard 50 10).width = (sampleObstacle 90 100 false).x ∧
    checkCollision (sampleCard 50 10) (sampleObstacle 90 100 false) = false :=
  ⟨by norm_num [sampleCard, sampleObstacle],
   (checkCollision_iff_strict_overlap (sampleCard 50 10) (sampleObstacle 90 100 false)).2.1
     (by norm_num [sampleCard, sampleObstacle])⟩

/-! ## Obstacle generator -/

/-- The obstacle pushed by `spawnObstacle`, in closed form. -/
theorem spawnObstacle_obstacles (g : Game) :
    (spawnObstacle g).obstacles = g.obstacles ++
      [{ x := (g.width : ℚ), width := 60,
         topHeight := ((Int.floor (g.random 0 * ((g.height - 329 : Int) : ℚ)) + 80 : Int) : ℚ),
         gap := 170, passed := false, hasRabbit := decide (g.random 1 > 7 / 10) }] := by
  have h : g.height - 170 - 80 - 80 + 1 = g.height - 329 := by ring
  simp [spawnObstacle, mathRandom, h]

/-- Range of `⌊r * n⌋` for a draw `0 ≤ r < 1` and a positive integer `n`. -/
theorem floor_draw_range (r : ℚ) (n : Int) (h0 : 0 ≤ r) (h1 : r < 1) (hn : 1 ≤ n) :
    0 ≤ Int.floor (r * (n : ℚ)) ∧ Int.floor (r * (n : ℚ)) ≤ n - 1 := by
  have hnq : (0 : ℚ) < (n : ℚ) := by exact_mod_cast (by omega : (0 : Int) < n)
  constructor
  · exact Int.floor_nonneg.mpr (mul_nonneg h0 hnq.le)
  · have : Int.floor (r * (n : ℚ)) < n := by
      rw [Int.floor_lt]
      calc r * (n : ℚ) < 1 * (n : ℚ) := by exact mul_lt_mul_of_pos_right h1 hnq
        _ = (n : ℚ) := one_mul _
    omega

/-- Range of `⌊r * n⌋` for a draw `0 ≤ r < 1` and an integer `n ≤ 0`. -/
theorem floor_draw_range_nonpos (r : ℚ) (n : Int) (h0 : 0 ≤ r) (h1 : r < 1) (hn : n ≤ 0) :
    n ≤ Int.floor (r * (n : ℚ)) ∧ Int.floor (r * (n : ℚ)) ≤ 0 ∧
      (0 < r → n < 0 → Int.floor (r * (n : ℚ)) < 0) := by
  have hnq : (n : ℚ) ≤ 0 := by exact_mod_cast hn
  refine ⟨?_, ?_, ?_⟩
  · rw [Int.le_floor]
    have : (1 - r) * (n : ℚ) ≤ 0 := mul_nonpos_of_nonneg_of_nonpos (by linarith) hnq
    linarith
  · have h : Int.floor (r * (n : ℚ)) < 1 := by
      rw [Int.floor_lt]
      have : r * (n : ℚ) ≤ 0 := mul_nonpos_of_nonneg_of_nonpos h0 hnq
      push_cast
      linarith
    omega
  · intro hr hneg
    rw [Int.floor_lt]
    have hnq2 : (n : ℚ) < 0 := by exact_mod_cast hneg
    have : r * (n : ℚ) < 0 := mul_neg_of_pos_of_neg hr hnq2
    simpa using this

/-- C2: for an integer field height `H ≥ 330` and a first draw `0 ≤ r < 1`,
`spawnObstacle` appends one obstacle whose `topHeight` is an integer `t` with
`80 ≤ t` and `t + 170 + 80 ≤ H`; every integer of `[80, H - 250]` is produced by
some draw; and for `H = 400` the possible values are exactly `80 .. 150`. -/
theorem spawnObstacle_topHeight_range (g : Game) (hH : 330 ≤ g.height) :
    (∀ r : Nat → ℚ, 0 ≤ r 0 → r 0 < 1 →
      ∃ (t : Int) (o : Obstacle),
        (spawnObstacle { g with random := r }).obstacles = g.obstacles ++ [o] ∧
        o.topHeight = (t : ℚ) ∧ o.gap = 170 ∧ 80 ≤ t ∧ t + 170 + 80 ≤ g.height) ∧
    (∀ t : Int, 80 ≤ t → t ≤ g.height - 250 →
      ∃ (r : Nat → ℚ) (o : Obstacle), 0 ≤ r 0 ∧ r 0 < 1 ∧
        (spawnObstacle { g with random := r }).obstacles = g.obstacles ++ [o] ∧
        o.topHeight = (t : ℚ)) ∧
    (g.height = 400 → ∀ t : Int,
      (∃ (r : Nat → ℚ) (o : Obstacle), 0 ≤ r 0 ∧ r 0 < 1 ∧
        (spawnObstacle { g with random := r }).obstacles = g.obstacles ++ [o] ∧
        o.topHeight = (t : ℚ)) ↔ (80 ≤ t ∧ t ≤ 150)) := by
  have range : ∀ r : Nat → ℚ, 0 ≤ r 0 → r 0 < 1 →
      ∃ (t : Int) (o : Obstacle),
        (spawnObstacle { g with random := r }).obstacles = g.obstacles ++ [o] ∧
        o.topHeight = (t : ℚ) ∧ o.gap = 170 ∧ 80 ≤ t ∧ t + 170 + 80 ≤ g.height := by
    intro r h0 h1
    obtain ⟨hlo, hhi⟩ := floor_draw_range (r 0) (g.height - 329) h0 h1 (by omega)
    refine ⟨Int.floor (r 0 * ((g.height - 329 : Int) : ℚ)) + 80, _,
      spawnObstacle_obstacles { g with random := r }, rfl, rfl, ?_, ?_⟩ <;> omega
  have onto : ∀ t : Int, 80 ≤ t → t ≤ g.height - 250 →
      ∃ (r : Nat → ℚ) (o : Obstacle), 0 ≤ r 0 ∧ r 0 < 1 ∧
        (spawnObstacle { g with random := r }).obstacles = g.obstacles ++ [o] ∧
        o.topHeight = (t : ℚ) := by
    intro t h80 hmax
    have hn : (0 : ℚ) < ((g.height - 329 : Int) : ℚ) := by
      exact_mod_cast (by omega : (0 : Int) < g.height - 329)
    have hval : ((t - 80 : Int) : ℚ) / ((g.height - 329 : Int) : ℚ) *
        ((g.height - 329 : Int) : ℚ) = ((t - 80 : Int) : ℚ) := div_mul_cancel₀ _ hn.ne'
    refine ⟨fun _ => ((t - 80 : Int) : ℚ) / ((g.height - 329 : Int) : ℚ), _, ?_, ?_,
      spawnObstacle_obstacles _, ?_⟩
    · exact div_nonneg (by exact_mod_cast (by omega : (0 : Int) ≤ t - 80)) hn.le
    · rw [div_lt_one hn]
      exact_mod_cast (by omega : t - 80 < g.height - 329)
    · show ((Int.floor (((t - 80 : Int) : ℚ) / ((g.height - 329 : Int) : ℚ) *
        ((g.height - 329 : Int) : ℚ)) + 80 : Int) : ℚ) = (t : ℚ)
      rw [hval, Int.floor_intCast]
      push_cast
      ring
  refine ⟨range, onto, ?_⟩
  intro h400 t
  constructor
  · rintro ⟨r, o, h0, h1, hobs, ht⟩
    obtain ⟨t1, o1, hobs1, ht1, -, hlo, hhi⟩ := range r h0 h1
    have ho : o = o1 := by
      have := hobs.symm.trans hobs1
      simpa using this
    have : (t : ℚ) = (t1 : ℚ) := by rw [← ht, ← ht1, ho]
    have : t = t1 := by exact_mod_cast this
    omega
  · rintro ⟨hlo, hhi⟩
    exact onto t hlo (by omega)

/-- Witness for C2: a field of height 400 with the first draw `1/2`. -/
theorem spawnObstacle_topHeight_range_witness :
    ∃ (t : Int) (o : Obstacle),
      (spawnObstacle { runningGame 400 (sampleCard 50 200) [] 0 0 119 (1 / 2) with
          random := fun _ => 1 / 2 }).obstacles =
        (runningGame 400 (sampleCard 50 200) [] 0 0 119 (1 / 2)).obstacles ++ [o] ∧
      o.topHeight = (t : ℚ) ∧ o.gap = 170 ∧ 80 ≤ t ∧
      t + 170 + 80 ≤ (runningGame 400 (sampleCard 50 200) [] 0 0 119 (1 / 2)).height :=
  (spawnObstacle_topHeight_range (runningGame 400 (sampleCard 50 200) [] 0 0 119 (1 / 2))
    (by simp [runningGame])).1 (fun _ => 1 / 2) (by norm_num) (by norm_num)

/-- C10, as stated, fails: on a field of height 200 (less than 330) with the draw
`1/2`, `spawnObstacle` pushes an obstacle with `topHeight = 15`, below the minimum
height 80. -/
theorem spawnObstacle_small_field_below_min :
    (runningGame 200 (sampleCard 50 100) [] 0 0 119 (1 / 2)).height = 200 ∧
    0 ≤ (runningGame 200 (sampleCard 50 100) [] 0 0 119 (1 / 2)).random 0 ∧
    (runningGame 200 (sampleCard 50 100) [] 0 0 119 (1 / 2)).random 0 < 1 ∧
    ∃ o : Obstacle,
      (spawnObstacle (runningGame 200 (sampleCard 50 100) [] 0 0 119 (1 / 2))).obstacles = [o] ∧
      o.topHeight = 15 ∧ ¬ (80 ≤ o.topHeight) := by
  refine ⟨rfl, by norm_num [runningGame], by norm_num [runningGame], _,
    spawnObstacle_obstacles _, ?_, ?_⟩ <;> norm_num [runningGame]

/-- C10, amended: `spawnObstacle` does not clamp the range; for every field height
`H` and first draw `0 ≤ r < 1` the pushed obstacle has
`topHeight = 80 + ⌊r * (H - 329)⌋`. Hence `topHeight ≥ 80` when `H ≥ 329`, while for
`H < 329` it lies in `[H - 249, 80]` and is below 80 as soon as `r > 0`. -/
theorem spawnObstacle_unclamped (g : Game) (h0 : 0 ≤ g.random 0) (h1 : g.random 0 < 1) :
    ∃ (t : Int) (o : Obstacle),
      (spawnObstacle g).obstacles = g.obstacles ++ [o] ∧ o.topHeight = (t : ℚ) ∧
      t = 80 + Int.floor (g.random 0 * ((g.height - 329 : Int) : ℚ)) ∧
      (329 ≤ g.height → 80 ≤ t) ∧
      (g.height < 329 → g.height - 249 ≤ t ∧ t ≤ 80 ∧ (0 < g.random 0 → t < 80)) := by
  refine ⟨Int.floor (g.random 0 * ((g.height - 329 : Int) : ℚ)) + 80, _,
    spawnObstacle_obstacles g, rfl, by ring, ?_, ?_⟩
  · intro hH
    rcases eq_or_lt_of_le hH with h | h
    · have : g.height - 329 = 0 := by omega
      simp [this]
    · have := (floor_draw_range (g.random 0) (g.height - 329) h0 h1 (by omega)).1
      omega
  · intro hH
    obtain ⟨hlo, hhi, hneg⟩ :=
      floor_draw_range_nonpos (g.random 0) (g.height - 329) h0 h1 (by omega)
    refine ⟨by omega, by omega, fun hr => ?_⟩
    have := hneg hr (by omega)
    omega

/-- Witness for C10 amended: height 200 and draw `1/2`. -/
theorem spawnObstacle_unclamped_witness :
    ∃ (t : Int) (o : Obstacle),
      (spawnObstacle (runningGame 200 (sampleCard 50 100) [] 0 0 119 (1 / 2))).obstacles =
        (runningGame 200 (sampleCard 50 100) [] 0 0 119 (1 / 2)).obstacles ++ [o] ∧
      o.topHeight = (t : ℚ) ∧
      t = 80 + Int.floor ((runningGame 200 (sampleCard 50 100) [] 0 0 119 (1 / 2)).random 0 *
        (((runningGame 200 (sampleCard 50 100) [] 0 0 119 (1 / 2)).height - 329 : Int) : ℚ)) ∧
      (329 ≤ (runningGame 200 (sampleCard 50 100) [] 0 0 119 (1 / 2)).height → 80 ≤ t) ∧
      ((runningGame 200 (sampleCard 50 100) [] 0 0 119 (1 / 2)).height < 329 →
        (runningGame 200 (sampleCard 50 100) [] 0 0 119 (1 / 2)).height - 249 ≤ t ∧ t ≤ 80 ∧
        (0 < (runningGame 200 (sampleCard 50 100) [] 0 0 119 (1 / 2)).random 0 → t < 80)) :=
  spawnObstacle_unclamped (runningGame 200 (sampleCard 50 100) [] 0 0 119 (1 / 2))
    (by norm_num [runningGame]) (by norm_num [runningGame])

/-! ## The tick: general lemmas -/

theorem update_eq_beforeObstacles (g : Game) :
    update g = (beforeObstacles g).bind (fun g3 => forEachFrom g3.obstacles.length 0 g3) := by
  unfold update beforeObstacles
  cases g.card <;> rfl

theorem Evolves.refl (g : Game) : Evolves g g :=
  ⟨rfl, rfl, rfl, rfl, le_refl _, by simp, id, id, le_refl _, le_max_left _ _⟩

theorem Evolves.trans {a b c : Game} (h1 : Evolves a b) (h2 : Evolves b c) : Evolves a c := by
  refine ⟨h2.frames_eq.trans h1.frames_eq, h2.height_eq.trans h1.height_eq,
    h2.width_eq.trans h1.width_eq, h2.card_eq.trans h1.card_eq,
    h1.score_le.trans h2.score_le, ?_, fun h => h1.running_le (h2.running_le h),
    fun h => h2.over_le (h1.over_le h), h1.best_le.trans h2.best_le, ?_⟩
  · have ha : a.score / 5 ≤ b.score / 5 := Nat.div_le_div_right h1.score_le
    have hb : b.score / 5 ≤ c.score / 5 := Nat.div_le_div_right h2.score_le
    rw [h2.speed_eq, h1.speed_eq, Nat.cast_sub ha, Nat.cast_sub hb,
      Nat.cast_sub (ha.trans hb)]
    ring
  · have h3 := h2.best_bound
    have h4 := h1.best_bound
    have h5 := h2.score_le
    simp only [le_max_iff] at h3 h4 ⊢
    omega

theorem gameOver_evolves (g : Game) : Evolves g (gameOver g) := by
  simp only [gameOver]
  split_ifs with h
  · refine ⟨rfl, rfl, rfl, rfl, le_refl _, by simp, ?_, ?_, ?_, ?_⟩
    · intro h1; simp at h1
    · intro _; rfl
    · simp only [gt_iff_lt] at h; exact h.le
    · simp
  · refine ⟨rfl, rfl, rfl, rfl, le_refl _, by simp, ?_, ?_, le_refl _, by simp⟩
    · intro h1; simp at h1
    · intro _; rfl

theorem gameOver_flags (g : Game) :
    (gameOver g).isRunning = false ∧ (gameOver g).isGameOver = true ∧
    (gameOver g).score = g.score ∧ (gameOver g).bestScore = max g.bestScore g.score ∧
    (gameOver g).obstacles = g.obstacles ∧ (gameOver g).card = g.card ∧
    (gameOver g).speed = g.speed ∧ (gameOver g).random = g.random := by
  simp only [gameOver]
  split_ifs with h
  · simp only [gt_iff_lt] at h
    simp [max_eq_right h.le]
  · simp only [gt_iff_lt, not_lt] at h
    simp [max_eq_left h]

theorem changeCardSuit_spec (g : Game) (c : Card) (hc : g.card = some c) :
    ∃ (c1 : Card) (r1 : Nat → ℚ),
      changeCardSuit g = some { g with card := some c1, random := r1 } ∧
      c1.physics = c.physics := by
  unfold changeCardSuit
  simp only [mathRandom, hc]
  split_ifs
  · exact ⟨_, _, rfl, rfl⟩
  · exact ⟨_, _, rfl, rfl⟩

/-- The score step `s → s + 1` reaches a multiple of 5 exactly when the quotient
by 5 grows. -/
theorem div_five_succ (s : Nat) :
    (s + 1) / 5 - s / 5 = if (s + 1) % 5 = 0 then 1 else 0 := by
  split_ifs with h <;> omega

theorem collisionStep_spec (c : Card) (obs : Obstacle) (g : Game) (hc : g.card = some c) :
    Evolves g (collisionStep c obs g) ∧
    (collisionStep c obs g).obstacles = g.obstacles ∧
    (collisionStep c obs g).score = g.score ∧
    (collisionStep c obs g).speed = g.speed ∧
    (collisionStep c obs g).card = some c ∧
    (checkCollision c { obs with x := obs.x - g.speed } = true →
      (collisionStep c obs g).isRunning = false ∧ (collisionStep c obs g).isGameOver = true) ∧
    (checkCollision c { obs with x := obs.x - g.speed } = false →
      collisionStep c obs g = g) := by
  unfold collisionStep
  have hf := gameOver_flags g
  split_ifs with h
  · exact ⟨gameOver_evolves g, hf.2.2.2.2.1, hf.2.2.1, hf.2.2.2.2.2.2.1,
      hf.2.2.2.2.2.1.trans hc, fun _ => ⟨hf.1, hf.2.1⟩, fun h2 => absurd h (by simp [h2])⟩
  · exact ⟨Evolves.refl g, rfl, rfl, rfl, hc, fun h2 => absurd h2 h, fun _ => rfl⟩

/-- The callback body on an obstacle that is scored: closed form of the result. -/
theorem obstacleBody_scored (obs : Obstacle) (g : Game) (c : Card) (hc : g.card = some c)
    (hp : obs.passed = false) (hx : c.x > obs.x - g.speed + obs.width) :
    ∃ (c1 : Card) (r1 : Nat → ℚ), c1.physics = c.physics ∧
      obstacleBody obs g = some
        ({ obs with x := obs.x - g.speed, passed := true },
         { collisionStep c obs g with
            score := (collisionStep c obs g).score + 1
            speed := if ((collisionStep c obs g).score + 1) % 5 = 0
              then (collisionStep c obs g).speed + 1 / 10 else (collisionStep c obs g).speed
            card := some c1
            random := r1 }) := by
  obtain ⟨c1, r1, hch, hphys⟩ := changeCardSuit_spec
    { collisionStep c obs g with score := (collisionStep c obs g).score + 1 } c
    (collisionStep_spec c obs g hc).2.2.2.2.1
  refine ⟨c1, r1, hphys, ?_⟩
  unfold obstacleBody
  simp only [hc]
  have hs : (!obs.passed && decide (c.x > obs.x - g.speed + obs.width)) = true := by
    simp [hp, hx]
  rw [if_pos hs]
  change (match changeCardSuit
    { collisionStep c obs g with score := (collisionStep c obs g).score + 1 } with
    | none => none
    | some g3 => some (_, if g3.score % 5 = 0 then { g3 with speed := g3.speed + 1 / 10 } else g3)) = _
  rw [hch]
  simp only
  split_ifs <;> rfl

/-- The callback body on an obstacle that is not scored: closed form of the result. -/
theorem obstacleBody_not_scored (obs : Obstacle) (g : Game) (c : Card) (hc : g.card = some c)
    (hs : obs.passed = true ∨ ¬ c.x > obs.x - g.speed + obs.width) :
    obstacleBody obs g = some ({ obs with x := obs.x - g.speed }, collisionStep c obs g) := by
  unfold obstacleBody
  simp only [hc]
  have hs1 : ¬ (!obs.passed && decide (c.x > obs.x - g.speed + obs.width)) = true := by
    rcases hs with h | h
    · simp [h]
    · simp [h]
  rw [if_neg hs1]
  rfl

/-- The callback body on one obstacle, for a state with a card: it returns, the
obstacle has moved left by the current speed, its `passed` flag is the old flag or
the scoring test, the score grows by one exactly when the flag goes from false to
true, and a collision ends the run. -/
theorem obstacleBody_spec (obs : Obstacle) (g : Game) (c : Card) (hc : g.card = some c) :
    ∃ (obs1 : Obstacle) (g1 : Game), obstacleBody obs g = some (obs1, g1) ∧
      Evolves g g1 ∧ g1.obstacles = g.obstacles ∧
      obs1 = { obs with x := obs.x - g.speed,
                        passed := obs.passed || decide (c.x > obs.x - g.speed + obs.width) } ∧
      g1.score = g.score + (if obs.passed = false ∧ obs1.passed = true then 1 else 0) ∧
      (checkCollision c { obs with x := obs.x - g.speed } = true →
        g1.isRunning = false ∧ g1.isGameOver = true) := by
  obtain ⟨hev, hobs, hscore, hspeed, hcard, hcoll, -⟩ := collisionStep_spec c obs g hc
  by_cases hs : obs.passed = false ∧ c.x > obs.x - g.speed + obs.width
  · obtain ⟨c1, r1, hphys, heq⟩ := obstacleBody_scored obs g c hc hs.1 hs.2
    refine ⟨_, _, heq, Evolves.trans hev ?_, hobs, ?_, ?_, hcoll⟩
    · refine ⟨rfl, rfl, rfl, ?_, Nat.le_succ _, ?_, id, id, le_refl _, le_max_left _ _⟩
      · simp [hcard, hphys]
      · have hd := div_five_succ (collisionStep c obs g).score
        simp only [hd]
        split_ifs <;> norm_num
    · simp [hs.1, hs.2]
    · simp [hs.1, hscore]
  · have hs1 : obs.passed = true ∨ ¬ c.x > obs.x - g.speed + obs.width := by
      by_cases hp : obs.passed = true
      · exact Or.inl hp
      · exact Or.inr (fun hx => hs ⟨by simpa using hp, hx⟩)
    refine ⟨_, _, obstacleBody_not_scored obs g c hc hs1, hev, hobs, ?_, ?_, hcoll⟩
    · rcases hs1 with h | h
      · simp [h]
      · simp [h]
    · rcases hs1 with h | h
      · simp [h, hscore]
      · cases hp : obs.passed <;> simp [hscore, hp]

/-- The callback on one obstacle, for a state with a card: it returns, and its
result is the result of the body with the mutated obstacle written at `index`, or
removed from the sequence when it has left the field. -/
theorem obstacleCallback_spec (obs : Obstacle) (index : Nat) (g : Game) (c : Card)
    (hc : g.card = some c) :
    ∃ (obs1 : Obstacle) (g1 g2 : Game), obstacleBody obs g = some (obs1, g1) ∧
      obstacleCallback obs index g = some g2 ∧ Evolves g g2 ∧
      g2.score = g.score + (if flagRaised (obs, obs1) = true then 1 else 0) ∧
      (obs.passed = true → obs1.passed = true) ∧
      g2.obstacles = (if obs1.x + obs1.width < 0
        then (g.obstacles.set index obs1).eraseIdx index else g.obstacles.set index obs1) := by
  obtain ⟨obs1, g1, hbody, hev, hobs, hobs1, hscore, -⟩ := obstacleBody_spec obs g c hc
  have hflag : (flagRaised (obs, obs1) = true) ↔ (obs.passed = false ∧ obs1.passed = true) := by
    simp [flagRaised]
  have hpass : obs.passed = true → obs1.passed = true := by
    intro h; rw [hobs1]; simp [h]
  unfold obstacleCallback
  rw [hbody]
  simp only
  split_ifs with hrem
  · refine ⟨obs1, g1, _, rfl, rfl, ?_, ?_, hpass, ?_⟩
    · exact ⟨hev.frames_eq, hev.height_eq, hev.width_eq, hev.card_eq, hev.score_le,
        hev.speed_eq, hev.running_le, hev.over_le, hev.best_le, hev.best_bound⟩
    · simp only [hflag]; exact hscore
    · simp [hobs, hrem]
  · refine ⟨obs1, g1, _, rfl, rfl, ?_, ?_, hpass, ?_⟩
    · exact ⟨hev.frames_eq, hev.height_eq, hev.width_eq, hev.card_eq, hev.score_le,
        hev.speed_eq, hev.running_le, hev.over_le, hev.best_le, hev.best_bound⟩
    · simp only [hflag]; exact hscore
    · simp [hobs, hrem]

/-- A state related by `Evolves` to a state with a card has a card. -/
theorem Evolves.card_isSome {g g1 : Game} (h : Evolves g g1) (hc : g.card.isSome = true) :
    g1.card.isSome = true := by
  have := h.card_eq
  cases h1 : g1.card with
  | none =>
    rw [h1] at this
    cases h2 : g.card with
    | none => rw [h2] at hc; simp at hc
    | some c => rw [h2] at this; simp at this
  | some c => rfl

/-- The obstacle pass, from any index and for any number of remaining indices,
returns for a state with a card; the ghost trace agrees with it; the score grows by
the number of visits that raised a `passed` flag; every visit is of an obstacle
that was in the sequence, at a position not yet reached, when this part of the pass
started, and leaves a true flag true; and every obstacle of the final sequence is
an obstacle of the initial one or the result of a visit. -/
theorem forEachTrace_spec (n : Nat) : ∀ (k : Nat) (g : Game), g.card.isSome = true →
    ∃ (g1 : Game) (tr : List (Obstacle × Obstacle)),
      forEachTrace n k g = some (g1, tr) ∧ forEachFrom n k g = some g1 ∧ Evolves g g1 ∧
      g1.score = g.score + (tr.filter flagRaised).length ∧
      (∀ p ∈ tr, (∃ i, k ≤ i ∧ g.obstacles[i]? = some p.1) ∧
        (p.1.passed = true → p.2.passed = true)) ∧
      (∀ o ∈ g1.obstacles, o ∈ g.obstacles ∨ ∃ p ∈ tr, p.2 = o) := by
  induction n with
  | zero =>
    intro k g _
    exact ⟨g, [], rfl, rfl, Evolves.refl g, by simp, by simp, fun o ho => Or.inl ho⟩
  | succ n ih =>
    intro k g hc
    cases hk : g.obstacles[k]? with
    | none =>
      obtain ⟨g1, tr, h1, h2, h3, h4, h5, h6⟩ := ih (k + 1) g hc
      refine ⟨g1, tr, ?_, ?_, h3, h4, ?_, h6⟩
      · simp only [forEachTrace, hk]; exact h1
      · simp only [forEachFrom, hk]; exact h2
      · intro p hp
        obtain ⟨⟨i, hi, hget⟩, hflag⟩ := h5 p hp
        exact ⟨⟨i, by omega, hget⟩, hflag⟩
    | some obs =>
      obtain ⟨c, hcard⟩ := Option.isSome_iff_exists.mp hc
      obtain ⟨obs1, gb, g2, hbody, hcb, hev, hscore, hpass, hobs⟩ :=
        obstacleCallback_spec obs k g c hcard
      obtain ⟨g1, tr, h1, h2, h3, h4, h5, h6⟩ := ih (k + 1) g2 (hev.card_isSome hc)
      refine ⟨g1, (obs, obs1) :: tr, ?_, ?_, hev.trans h3, ?_, ?_, ?_⟩
      · simp only [forEachTrace, hk, hbody, hcb, h1]
      · simp only [forEachFrom, hk, hcb]; exact h2
      · rw [h4, hscore]
        by_cases hf : flagRaised (obs, obs1) = true
        · simp [List.filter_cons, hf]; omega
        · simp [List.filter_cons, hf]
      · intro p hp
        rcases List.mem_cons.mp hp with hp | hp
        · subst hp
          exact ⟨⟨k, le_refl _, hk⟩, hpass⟩
        · obtain ⟨⟨i, hi, hget⟩, hflag⟩ := h5 p hp
          refine ⟨?_, hflag⟩
          rw [hobs] at hget
          split_ifs at hget with hrem
          · rw [List.getElem?_eraseIdx] at hget
            have : ¬ i < k := by omega
            rw [if_neg this, List.getElem?_set_ne (by omega)] at hget
            exact ⟨i + 1, by omega, hget⟩
          · rw [List.getElem?_set_ne (by omega)] at hget
            exact ⟨i, by omega, hget⟩
      · intro o ho
        rcases h6 o ho with h | ⟨p, hp, hpo⟩
        · rw [hobs] at h
          have hset : o ∈ g.obstacles.set k obs1 := by
            split_ifs at h
            · exact List.mem_of_mem_eraseIdx h
            · exact h
          rcases List.mem_or_eq_of_mem_set hset with h7 | h7
          · exact Or.inl h7
          · exact Or.inr ⟨(obs, obs1), List.mem_cons_self _ _, h7.symm⟩
        · exact Or.inr ⟨p, List.mem_cons_of_mem _ hp, hpo⟩

/-- Dropping past the removed position of `eraseIdx` drops one element more of
the original list. -/
theorem drop_eraseIdx_ge (l : List Obstacle) (k j : Nat) (h : k ≤ j) :
    (l.eraseIdx k).drop j = l.drop (j + 1) := by
  apply List.ext_getElem?
  intro i
  rw [List.getElem?_drop, List.getElem?_drop, List.getElem?_eraseIdx]
  have : ¬ j + i < k := by omega
  rw [if_neg this]
  congr 1
  omega

/-- The visits of the obstacle pass are made in sequence order and without
repetition: the visited obstacles, as received, form a sublist of the part of the
sequence that was still ahead when this part of the pass started. -/
theorem forEachTrace_sublist (n : Nat) : ∀ (k : Nat) (g g1 : Game)
    (tr : List (Obstacle × Obstacle)), g.card.isSome = true →
    forEachTrace n k g = some (g1, tr) →
    (tr.map Prod.fst).Sublist (g.obstacles.drop k) := by
  induction n with
  | zero =>
    intro k g g1 tr _ h
    simp only [forEachTrace, Option.some.injEq, Prod.mk.injEq] at h
    rw [← h.2]
    exact List.nil_sublist _
  | succ n ih =>
    intro k g g1 tr hc h
    cases hk : g.obstacles[k]? with
    | none =>
      simp only [forEachTrace, hk] at h
      exact (ih (k + 1) g g1 tr hc h).trans
        (List.drop_sublist_drop_left g.obstacles (Nat.le_succ k))
    | some obs =>
      obtain ⟨c, hcard⟩ := Option.isSome_iff_exists.mp hc
      obtain ⟨obs1, gb, g2, hbody, hcb, hev, -, -, hobs⟩ :=
        obstacleCallback_spec obs k g c hcard
      simp only [forEachTrace, hk, hbody, hcb] at h
      cases hrec : forEachTrace n (k + 1) g2 with
      | none => rw [hrec] at h; simp at h
      | some res =>
        obtain ⟨g4, tr1⟩ := res
        rw [hrec] at h
        simp only [Option.some.injEq, Prod.mk.injEq] at h
        have hsub := ih (k + 1) g2 g4 tr1 (hev.card_isSome hc) hrec
        obtain ⟨hlt, hget⟩ := List.getElem?_eq_some_iff.mp hk
        have hdrop : g.obstacles.drop k = obs :: g.obstacles.drop (k + 1) := by
          rw [List.drop_eq_getElem_cons hlt, hget]
        have hnext : (g2.obstacles.drop (k + 1)).Sublist (g.obstacles.drop (k + 1)) := by
          rw [hobs]
          split_ifs
          · rw [drop_eraseIdx_ge _ k (k + 1) (Nat.le_succ k),
              List.drop_set_of_lt obs1 g.obstacles (by omega : k < k + 1 + 1)]
            exact List.drop_sublist_drop_left g.obstacles (Nat.le_succ (k + 1))
          · rw [List.drop_set_of_lt obs1 g.obstacles (Nat.lt_succ_self k)]
        rw [← h.2, hdrop, List.map_cons]
        exact (hsub.trans hnext).cons₂ obs

theorem spawnObstacle_fields (g : Game) :
    (spawnObstacle g).frames = g.frames ∧ (spawnObstacle g).score = g.score ∧
    (spawnObstacle g).speed = g.speed ∧ (spawnObstacle g).height = g.height ∧
    (spawnObstacle g).card = g.card ∧ (spawnObstacle g).isRunning = g.isRunning ∧
    (spawnObstacle g).isGameOver = g.isGameOver ∧
    (spawnObstacle g).bestScore = g.bestScore ∧
    ∃ o : Obstacle, (spawnObstacle g).obstacles = g.obstacles ++ [o] ∧ o.passed = false :=
  ⟨rfl, rfl, rfl, rfl, rfl, rfl, rfl, rfl, _, spawnObstacle_obstacles g, rfl⟩

/-- The part of `update()` before the obstacle pass, for a state with a card. -/
theorem beforeObstacles_spec (g : Game) (c : Card) (hc : g.card = some c) :
    ∃ g3 : Game, beforeObstacles g = some g3 ∧
      g3.frames = g.frames + 1 ∧ g3.score = g.score ∧ g3.speed = g.speed ∧
      g3.height = g.height ∧ g3.card = some (cardAfterPhysics c) ∧
      (hitsBoundary g c → g3.isRunning = false ∧ g3.isGameOver = true ∧
        g3.bestScore = max g.bestScore g.score) ∧
      (¬ hitsBoundary g c → g3.isRunning = g.isRunning ∧ g3.isGameOver = g.isGameOver ∧
        g3.bestScore = g.bestScore) ∧
      (g3.obstacles = g.obstacles ∨
        ∃ o : Obstacle, g3.obstacles = g.obstacles ++ [o] ∧ o.passed = false) := by
  unfold beforeObstacles
  simp only [hc]
  set g1 : Game := { g with frames := g.frames + 1, card := some (cardAfterPhysics c) } with hg1
  change ∃ g3 : Game,
    some (if (if hitsBoundary g c then gameOver g1 else g1).frames % 120 = 0
      then spawnObstacle (if hitsBoundary g c then gameOver g1 else g1)
      else (if hitsBoundary g c then gameOver g1 else g1)) = some g3 ∧ _
  set g2 : Game := if hitsBoundary g c then gameOver g1 else g1 with hg2
  have hf := gameOver_flags g1
  have hev := gameOver_evolves g1
  have h2 : g2.frames = g.frames + 1 ∧ g2.score = g.score ∧ g2.speed = g.speed ∧
      g2.height = g.height ∧ g2.card = some (cardAfterPhysics c) ∧
      (hitsBoundary g c → g2.isRunning = false ∧ g2.isGameOver = true ∧
        g2.bestScore = max g.bestScore g.score) ∧
      (¬ hitsBoundary g c → g2.isRunning = g.isRunning ∧ g2.isGameOver = g.isGameOver ∧
        g2.bestScore = g.bestScore) ∧ g2.obstacles = g.obstacles := by
    rw [hg2]
    split_ifs with hb
    · exact ⟨hev.frames_eq, hf.2.2.1, hf.2.2.2.2.2.2.1, hev.height_eq, hf.2.2.2.2.2.1,
        fun _ => ⟨hf.1, hf.2.1, hf.2.2.2.1⟩, fun h => absurd hb h, hf.2.2.2.2.1⟩
    · exact ⟨rfl, rfl, rfl, rfl, rfl, fun h => absurd h hb, fun _ => ⟨rfl, rfl, rfl⟩, rfl⟩
  obtain ⟨a1, a2, a3, a4, a5, a6, a7, a8⟩ := h2
  split_ifs with hsp
  · obtain ⟨b1, b2, b3, b4, b5, b6, b7, b8, o, b9, b10⟩ := spawnObstacle_fields g2
    refine ⟨_, rfl, b1.trans a1, b2.trans a2, b3.trans a3, b4.trans a4, b5.trans a5, ?_, ?_,
      Or.inr ⟨o, by rw [b9, a8], b10⟩⟩
    · intro hb
      rw [b6, b7, b8]
      exact a6 hb
    · intro hb
      rw [b6, b7, b8]
      exact a7 hb
  · exact ⟨_, rfl, a1, a2, a3, a4, a5, a6, a7, Or.inl a8⟩

/-- One tick, for a state with a card: `update` returns; the ghost trace agrees
with it; and the state before the obstacle pass and the final state are related as
described by `beforeObstacles_spec` and `forEachTrace_spec`. -/
theorem update_spec (g : Game) (c : Card) (hc : g.card = some c) :
    ∃ (g3 g1 : Game) (tr : List (Obstacle × Obstacle)),
      beforeObstacles g = some g3 ∧ updateTrace g = some (g1, tr) ∧ update g = some g1 ∧
      Evolves g3 g1 ∧ g1.score = g3.score + (tr.filter flagRaised).length ∧
      (∀ p ∈ tr, (∃ i : Nat, g3.obstacles[i]? = some p.1) ∧
        (p.1.passed = true → p.2.passed = true)) ∧
      (∀ o ∈ g1.obstacles, o ∈ g3.obstacles ∨ ∃ p ∈ tr, p.2 = o) := by
  obtain ⟨g3, h3, -, -, -, -, hcard, -⟩ := beforeObstacles_spec g c hc
  obtain ⟨g1, tr, h1, h2, hev, hscore, hvis, hfin⟩ :=
    forEachTrace_spec g3.obstacles.length 0 g3 (by rw [hcard]; rfl)
  refine ⟨g3, g1, tr, h3, ?_, ?_, hev, hscore, ?_, hfin⟩
  · simp only [updateTrace, h3]; exact h1
  · rw [update_eq_beforeObstacles, h3]; exact h2
  · intro p hp
    obtain ⟨⟨i, -, hi⟩, hflag⟩ := hvis p hp
    exact ⟨⟨i, hi⟩, hflag⟩

/-- A tick keeps the card: after `update` the state still has one. -/
theorem update_card_isSome (g : Game) (hc : g.card.isSome = true) :
    ∃ g1 : Game, update g = some g1 ∧ g1.card.isSome = true ∧ g.score ≤ g1.score := by
  obtain ⟨c, hcard⟩ := Option.isSome_iff_exists.mp hc
  obtain ⟨g3, g1, tr, h3, -, hup, hev, -, -, -⟩ := update_spec g c hcard
  obtain ⟨g3', h3', -, hs, -, -, hcard3, -⟩ := beforeObstacles_spec g c hcard
  have : g3' = g3 := Option.some.inj (h3'.symm.trans h3)
  subst this
  exact ⟨g1, hup, hev.card_isSome (by rw [hcard3]; rfl), hs ▸ hev.score_le⟩

/-- Any number of ticks from a state with a card returns, and the score has not
decreased. -/
theorem ticks_score_le (n : Nat) : ∀ g : Game, g.card.isSome = true →
    ∃ gn : Game, ticks n g = some gn ∧ g.score ≤ gn.score := by
  induction n with
  | zero => intro g _; exact ⟨g, rfl, le_refl _⟩
  | succ n ih =>
    intro g hc
    obtain ⟨g1, hup, hc1, hle⟩ := update_card_isSome g hc
    obtain ⟨gn, hn, hle2⟩ := ih g1 hc1
    exact ⟨gn, by simp only [ticks, hup]; exact hn, hle.trans hle2⟩

/-! ## Scoring -/

/-- C4: in every tick from a state with a card, the speed after `update` is the
speed before plus `1/10` for each multiple of 5 that the score reaches during the
tick, and nothing else changes it: a tick with the single increment `s → s + 1`
adds `1/10` when `(s + 1) % 5 = 0` and nothing otherwise, and a tick without an
increment leaves the speed unchanged. -/
theorem update_speed_step (g : Game) (c : Card) (hc : g.card = some c) :
    ∃ g1 : Game, update g = some g1 ∧
      g1.speed = g.speed + ((g1.score / 5 - g.score / 5 : Nat) : ℚ) / 10 ∧
      (g1.score = g.score + 1 →
        g1.speed = g.speed + (if (g.score + 1) % 5 = 0 then 1 / 10 else 0)) ∧
      (g1.score = g.score → g1.speed = g.speed) := by
  obtain ⟨g3, g1, tr, h3, -, hup, hev, -, -, -⟩ := update_spec g c hc
  obtain ⟨g3', h3', -, hs, hsp, -⟩ := beforeObstacles_spec g c hc
  have : g3' = g3 := Option.some.inj (h3'.symm.trans h3)
  subst this
  have hspeed : g1.speed = g.speed + ((g1.score / 5 - g.score / 5 : Nat) : ℚ) / 10 := by
    rw [hev.speed_eq, hs, hsp]
  refine ⟨g1, hup, hspeed, ?_, ?_⟩
  · intro h1
    rw [hspeed, h1, div_five_succ]
    split_ifs <;> norm_num
  · intro h0
    rw [hspeed, h0]
    simp

/-- Witness for C4: the tick from `passingState` takes the score from 4 to 5 and
the speed from `2.2` to `2.3`. -/
theorem update_speed_step_witness :
    passingState.card = some (sampleCard 50 200) ∧ passingState.score = 4 ∧
    passingState.speed = 22 / 10 ∧
    ∃ g1 : Game, update passingState = some g1 ∧ g1.score = 5 ∧ g1.speed = 23 / 10 := by
  refine ⟨rfl, rfl, rfl, ?_⟩
  obtain ⟨g1, h1, -, h2, -⟩ := update_speed_step passingState (sampleCard 50 200) rfl
  have hs : (update passingState).map (fun g => g.score) = some 5 := by
    norm_num [update, passingState, runningGame, sampleCard, sampleObstacle, forEachFrom,
      obstacleCallback, obstacleBody, checkCollision, changeCardSuit, mathRandom, gameOver]
  rw [h1] at hs
  have hs5 : g1.score = 5 := by simpa using hs
  refine ⟨g1, h1, hs5, ?_⟩
  rw [h2 (by rw [hs5]; rfl)]
  norm_num [passingState, runningGame]

/-! ## Physics and boundary -/

/-- C7: in every tick from a state with a card, if after the physics step the
bottom edge of the card is at or below the field height, or its top edge is above
zero, then `update` returns a state with `isRunning = false` and
`isGameOver = true`. -/
theorem update_boundary_ends_run (g : Game) (c : Card) (hc : g.card = some c)
    (hb : c.y + (c.velocity + c.gravity) + c.height ≥ (g.height : ℚ) ∨
      c.y + (c.velocity + c.gravity) < 0) :
    ∃ g1 : Game, update g = some g1 ∧ g1.isRunning = false ∧ g1.isGameOver = true := by
  obtain ⟨g3, g1, tr, h3, -, hup, hev, -, -, -⟩ := update_spec g c hc
  obtain ⟨g3', h3', -, -, -, -, -, hbound, -⟩ := beforeObstacles_spec g c hc
  have : g3' = g3 := Option.some.inj (h3'.symm.trans h3)
  subst this
  obtain ⟨hr, ho, -⟩ := hbound hb
  refine ⟨g1, hup, ?_, hev.over_le ho⟩
  cases h : g1.isRunning
  · rfl
  · rw [hev.running_le h] at hr
    exact absurd hr (by simp)

/-- Witness for C7: the card reaches `y = 396` on a field of height 400, so its
bottom edge is at `452 ≥ 400`. -/
theorem update_boundary_ends_run_witness :
    boundaryState.card = some (sampleCard 50 (3958 / 10)) ∧
    (sampleCard 50 (3958 / 10)).y +
      ((sampleCard 50 (3958 / 10)).velocity + (sampleCard 50 (3958 / 10)).gravity) = 396 ∧
    boundaryState.isRunning = true ∧
    ∃ g1 : Game, update boundaryState = some g1 ∧ g1.isRunning = false ∧
      g1.isGameOver = true :=
  ⟨rfl, by norm_num [sampleCard], rfl,
    update_boundary_ends_run boundaryState (sampleCard 50 (3958 / 10)) rfl
      (Or.inl (by norm_num [sampleCard, boundaryState, runningGame]))⟩

/-- C8: in every tick from a state with a card, `update` returns; the new velocity
is the old velocity plus gravity; the new `y` is the old `y` plus the new velocity;
`x`, `width`, `height`, `gravity` and `jumpStrength` of the card are unchanged; and
the frame counter has grown by exactly one. -/
theorem update_physics_step (g : Game) (c : Card) (hc : g.card = some c) :
    ∃ (g1 : Game) (c1 : Card), update g = some g1 ∧ g1.card = some c1 ∧
      c1.velocity = c.velocity + c.gravity ∧ c1.y = c.y + c1.velocity ∧
      c1.x = c.x ∧ c1.width = c.width ∧ c1.height = c.height ∧
      c1.gravity = c.gravity ∧ c1.jumpStrength = c.jumpStrength ∧
      g1.frames = g.frames + 1 := by
  obtain ⟨g3, g1, tr, h3, -, hup, hev, -, -, -⟩ := update_spec g c hc
  obtain ⟨g3', h3', hfr, -, -, -, hcard, -⟩ := beforeObstacles_spec g c hc
  have : g3' = g3 := Option.some.inj (h3'.symm.trans h3)
  subst this
  have hce := hev.card_eq
  rw [hcard] at hce
  cases h1 : g1.card with
  | none => rw [h1] at hce; simp at hce
  | some c1 =>
    rw [h1] at hce
    simp only [Option.map_some', Option.some.injEq, Card.physics, cardAfterPhysics,
      Prod.mk.injEq] at hce
    obtain ⟨e1, e2, e3, e4, e5, e6, e7⟩ := hce
    exact ⟨g1, c1, hup, h1, e5, by rw [e2, e5], e1, e3, e4, e6, e7,
      hev.frames_eq.trans hfr⟩

/-- Witness for C8: the tick from `passingState`. -/
theorem update_physics_step_witness :
    passingState.card = some (sampleCard 50 200) ∧
    ∃ (g1 : Game) (c1 : Card), update passingState = some g1 ∧ g1.card = some c1 ∧
      c1.velocity = 2 / 10 ∧ c1.y = 2002 / 10 ∧ g1.frames = 750 := by
  refine ⟨rfl, ?_⟩
  obtain ⟨g1, c1, h1, h2, h3, h4, -, -, -, -, -, h5⟩ :=
    update_physics_step passingState (sampleCard 50 200) rfl
  refine ⟨g1, c1, h1, h2, ?_, ?_, ?_⟩
  · rw [h3]; norm_num [sampleCard]
  · rw [h4, h3]; norm_num [sampleCard]
  · rw [h5]; rfl

/-! ## Input -/

/-- C9: `handleInput` on a running state with a card sets the velocity of the card
to its `jumpStrength` and changes nothing else; on a state that is not running
(idle before the first start, or game over) it returns the state unchanged; and the
card created by `resetGameEntities` has `jumpStrength = -4.5`. -/
theorem handleInput_jump_or_ignore (g : Game) :
    (∀ c : Card, g.isRunning = true → g.card = some c →
      handleInput g = some { g with card := some { c with velocity := c.jumpStrength } }) ∧
    (g.isRunning = false → handleInput g = some g) ∧
    (∃ c : Card, (resetGameEntities g).card = some c ∧ c.jumpStrength = -(9 / 2)) ∧
    (∀ (w h : Int) (st : Option Nat) (r : Nat → ℚ),
      handleInput (newGame w h st r) = some (newGame w h st r)) := by
  refine ⟨?_, ?_, ⟨_, rfl, by norm_num⟩, fun _ _ _ _ => rfl⟩
  · intro c hr hc
    simp [handleInput, hr, hc]
  · intro hr
    simp [handleInput, hr]

/-- Witness for C9: a jump in `passingState` sets the velocity to `-4.5`, and a jump
in the freshly constructed idle game is ignored. -/
theorem handleInput_jump_or_ignore_witness :
    handleInput passingState = some { passingState with
      card := some { sampleCard 50 200 with velocity := -(45 / 10) } } ∧
    handleInput (newGame 320 400 none (fun _ => 1 / 2)) =
      some (newGame 320 400 none (fun _ => 1 / 2)) :=
  ⟨(handleInput_jump_or_ignore passingState).1 (sampleCard 50 200) rfl rfl,
   (handleInput_jump_or_ignore (newGame 320 400 none (fun _ => 1 / 2))).2.1 rfl⟩

/-! ## Restart -/

/-- Closed form of the state after `reset()`: the entities are reset and the first
tick has run. The run is still on exactly when the field is at least 113 high, so
that the card, placed at half the height, does not touch the bottom after its first
step. -/
theorem reset_eq (g : Game) :
    reset g = some
      { g with
        score := 0
        frames := 1
        speed := 22 / 10
        obstacles := []
        card := some (cardAfterPhysics
          { x := 50, y := (g.height : ℚ) / 2, width := 40, height := 56, velocity := 0,
            gravity := 2 / 10, jumpStrength := -(45 / 10), rotation := 0, rank := "A",
            suit := "♥", isFaceUp := true, backVariant := 0 })
        isRunning := decide (113 ≤ g.height)
        isGameOver := !decide (113 ≤ g.height) } := by
  have key : ((g.height : ℚ) ≤ (g.height : ℚ) / 2 + 2 / 10 + 56 ∨
      (g.height : ℚ) / 2 + 2 / 10 < 0) ↔ ¬ 113 ≤ g.height := by
    constructor
    · rintro (h | h) hH
      · have : (113 : ℚ) ≤ (g.height : ℚ) := by exact_mod_cast hH
        linarith
      · have : (113 : ℚ) ≤ (g.height : ℚ) := by exact_mod_cast hH
        linarith
    · intro hH
      left
      have : g.height ≤ 112 := by omega
      have : (g.height : ℚ) ≤ 112 := by exact_mod_cast this
      linarith
  by_cases hH : 113 ≤ g.height
  · have hb := (not_congr key).mpr (not_not.mpr hH)
    simp [reset, start, loop, update, resetGameEntities, forEachFrom, cardAfterPhysics, hb, hH]
  · have hb := key.mpr hH
    simp [reset, start, loop, update, resetGameEntities, forEachFrom, cardAfterPhysics, hb, hH,
      gameOver]

/-- C5, as stated, fails: after `reset()` from the game-over state `overState` the
frame counter is 1, not 0, because `start()` runs the first tick through `loop()`;
and on a field of height 100 that first tick already ends the run. -/
theorem reset_frames_not_zero :
    overState.isGameOver = true ∧
    (∃ g1 : Game, reset overState = some g1 ∧ g1.frames = 1 ∧ ¬ (g1.frames = 0)) ∧
    (∃ g1 : Game, reset overStateSmall = some g1 ∧ ¬ (g1.isRunning = true) ∧
      ¬ (g1.isGameOver = false)) := by
  refine ⟨rfl, ⟨_, reset_eq overState, rfl, by decide⟩, ⟨_, reset_eq overStateSmall, ?_, ?_⟩⟩
  · simp [overStateSmall, overState]
  · simp [overStateSmall, overState]

/-- C5, amended: for every state, `reset()` returns; afterwards the score is 0, the
speed is `2.2` (the value a first `start()` gives), the obstacle sequence is empty
and the frame counter is 1, the first tick having run inside `start()`;
`isRunning` is true exactly when the field height is at least 113, and
`isGameOver` is its negation. Directly after `resetGameEntities()` the frame
counter is 0. -/
theorem reset_round_trip (g : Game) :
    ∃ g1 : Game, reset g = some g1 ∧ start g = some g1 ∧
      g1.score = 0 ∧ g1.speed = 22 / 10 ∧ g1.obstacles = [] ∧ g1.frames = 1 ∧
      (g1.isRunning = true ↔ 113 ≤ g.height) ∧ g1.isGameOver = !g1.isRunning ∧
      (resetGameEntities g).frames = 0 ∧ (resetGameEntities g).score = 0 ∧
      (resetGameEntities g).speed = 22 / 10 ∧ (resetGameEntities g).obstacles = [] :=
  ⟨_, reset_eq g, reset_eq g, rfl, rfl, rfl, rfl, by simp, rfl, rfl, rfl, rfl, rfl⟩

/-! ## Best score -/

/-- The method `gameOver()` by itself records the maximum of the best score and the current
score, and writes storage only when the score is strictly greater than the best
score. -/
theorem gameOver_bestScore (g : Game) :
    (gameOver g).bestScore = max g.bestScore g.score ∧
    (gameOver g).stored = (if g.bestScore < g.score then some g.score else g.stored) := by
  refine ⟨(gameOver_flags g).2.2.2.1, ?_⟩
  simp only [gameOver, gt_iff_lt]
  split_ifs <;> rfl

/-- C6: the code at the failing input `lateScoreState`. The run is on before the
tick; the tick ends it at the boundary test, where `gameOver()` compares the best
score 0 with the score 0; the obstacle pass of the same tick then scores the
obstacle, so the tick ends with score 1 and best score 0, which is not the maximum
of the previous best score and the score at the end of the tick. -/
theorem update_late_score_misses_best :
    lateScoreState.isRunning = true ∧ lateScoreState.score = 0 ∧
    lateScoreState.bestScore = 0 ∧
    ∃ g1 : Game, update lateScoreState = some g1 ∧
      g1.isRunning = false ∧ g1.isGameOver = true ∧ g1.score = 1 ∧ g1.bestScore = 0 ∧
      ¬ (g1.bestScore = max lateScoreState.bestScore g1.score) := by
  refine ⟨rfl, rfl, rfl, ?_⟩
  have h : (update lateScoreState).map
      (fun g => (g.isRunning, g.isGameOver, g.score, g.bestScore)) =
      some (false, true, 1, 0) := by
    norm_num [update, lateScoreState, runningGame, sampleCard, sampleObstacle, forEachFrom,
      obstacleCallback, obstacleBody, checkCollision, changeCardSuit, mathRandom, gameOver]
  cases hu : update lateScoreState with
  | none => rw [hu] at h; simp at h
  | some g1 =>
    rw [hu] at h
    simp only [Option.map_some', Option.some.injEq, Prod.mk.injEq] at h
    obtain ⟨h1, h2, h3, h4⟩ := h
    refine ⟨g1, rfl, h1, h2, h3, h4, ?_⟩
    rw [h3, h4]
    decide

/-! ## The obstacle pass: visits -/

/-- Every visit of the obstacle pass leaves the width of the obstacle unchanged and
sets its `passed` flag to the old flag or the scoring test of the code, which
compares the left edge `x` of the card with the right edge of the moved obstacle. -/
theorem forEachTrace_visits (cx : ℚ) (n : Nat) : ∀ (k : Nat) (g g1 : Game)
    (tr : List (Obstacle × Obstacle)), (∃ c : Card, g.card = some c ∧ c.x = cx) →
    forEachTrace n k g = some (g1, tr) →
    ∀ p ∈ tr, p.2.width = p.1.width ∧
      p.2.passed = (p.1.passed || decide (cx > p.2.x + p.2.width)) := by
  induction n with
  | zero =>
    intro k g g1 tr _ h p hp
    simp only [forEachTrace, Option.some.injEq, Prod.mk.injEq] at h
    rw [← h.2] at hp
    simp at hp
  | succ n ih =>
    intro k g g1 tr hc h p hp
    cases hk : g.obstacles[k]? with
    | none =>
      simp only [forEachTrace, hk] at h
      exact ih (k + 1) g g1 tr hc h p hp
    | some obs =>
      obtain ⟨c, hcard, hcx⟩ := hc
      obtain ⟨obs1, gb, g2, hbody, hcb, hev, -, -, -⟩ := obstacleCallback_spec obs k g c hcard
      obtain ⟨obs1', gb', hbody', -, -, hform, -, -⟩ := obstacleBody_spec obs g c hcard
      have hsame : obs1' = obs1 := by
        have := hbody'.symm.trans hbody
        simp only [Option.some.injEq, Prod.mk.injEq] at this
        exact this.1
      subst hsame
      simp only [forEachTrace, hk, hbody, hcb] at h
      cases hrec : forEachTrace n (k + 1) g2 with
      | none => rw [hrec] at h; simp at h
      | some res =>
        obtain ⟨g4, tr1⟩ := res
        rw [hrec] at h
        simp only [Option.some.injEq, Prod.mk.injEq] at h
        have hc2 : ∃ c2 : Card, g2.card = some c2 ∧ c2.x = cx := by
          have hce := hev.card_eq
          rw [hcard] at hce
          cases h2 : g2.card with
          | none => rw [h2] at hce; simp at hce
          | some c2 =>
            rw [h2] at hce
            simp only [Option.map_some', Option.some.injEq, Card.physics, Prod.mk.injEq] at hce
            exact ⟨c2, rfl, hce.1.trans hcx⟩
        rw [← h.2] at hp
        rcases List.mem_cons.mp hp with hp | hp
        · subst hp
          rw [hform]
          simp [hcx]
        · exact ih (k + 1) g2 g4 tr1 hc2 hrec p hp

/-! ## Scoring trigger -/

/-- C12, as stated, fails: in the tick from `edgeState` the moved obstacle has its
right edge at `69.8`; the right edge of the card, `50 + 40 = 90`, is past it, but
the obstacle is not marked passed and the score stays 0, because the code compares
the left edge `50` of the card. -/
theorem update_right_edge_past_not_scored :
    edgeState.card = some (sampleCard 50 200) ∧
    edgeState.obstacles = [sampleObstacle 12 100 false] ∧ edgeState.score = 0 ∧
    ∃ g1 : Game, update edgeState = some g1 ∧
      g1.obstacles = [sampleObstacle (49 / 5) 100 false] ∧ g1.score = 0 ∧
      (sampleCard 50 200).x + (sampleCard 50 200).width >
        (sampleObstacle (49 / 5) 100 false).x + (sampleObstacle (49 / 5) 100 false).width ∧
      ¬ ((sampleCard 50 200).x >
        (sampleObstacle (49 / 5) 100 false).x + (sampleObstacle (49 / 5) 100 false).width) := by
  refine ⟨rfl, rfl, rfl, ?_⟩
  have h : (update edgeState).map (fun g => (g.obstacles, g.score)) =
      some ([sampleObstacle (49 / 5) 100 false], 0) := by
    norm_num [update, edgeState, runningGame, sampleCard, sampleObstacle, forEachFrom,
      obstacleCallback, obstacleBody, checkCollision, changeCardSuit, mathRandom, gameOver]
  cases hu : update edgeState with
  | none => rw [hu] at h; simp at h
  | some g1 =>
    rw [hu] at h
    simp only [Option.map_some', Option.some.injEq, Prod.mk.injEq] at h
    exact ⟨g1, rfl, h.1, h.2, by norm_num [sampleCard, sampleObstacle],
      by norm_num [sampleCard, sampleObstacle]⟩

/-- C12, amended: an obstacle is scored when the left edge `card.x` of the card is
past the right edge of the moved obstacle. For a state with card `c`, the callback
body on an obstacle whose `passed` flag is false returns, moves the obstacle left by
the current speed, and marks it passed and adds 1 to the score if and only if
`c.x > obs.x + obs.width` for the moved obstacle; otherwise flag and score are
unchanged. In a whole tick, every visited obstacle with a false flag has its flag
raised if and only if that test holds, and the score grows by the number of raised
flags. -/
theorem update_scoring_trigger (g : Game) (c : Card) (hc : g.card = some c) :
    (∀ obs : Obstacle, obs.passed = false →
      ∃ (obs1 : Obstacle) (g1 : Game), obstacleBody obs g = some (obs1, g1) ∧
        obs1.x = obs.x - g.speed ∧ obs1.width = obs.width ∧
        ((obs1.passed = true ∧ g1.score = g.score + 1) ↔ c.x > obs1.x + obs1.width) ∧
        (¬ c.x > obs1.x + obs1.width → obs1.passed = false ∧ g1.score = g.score)) ∧
    ∃ (g1 : Game) (tr : List (Obstacle × Obstacle)),
      update g = some g1 ∧ updateTrace g = some (g1, tr) ∧
      g1.score = g.score + (tr.filter flagRaised).length ∧
      ∀ p ∈ tr, p.1.passed = false →
        (p.2.passed = true ↔ c.x > p.2.x + p.2.width) := by
  constructor
  · intro obs hp
    obtain ⟨obs1, g1, hbody, -, -, hform, hscore, -⟩ := obstacleBody_spec obs g c hc
    have hx : obs1.x = obs.x - g.speed := by rw [hform]
    have hw : obs1.width = obs.width := by rw [hform]
    have hpass : obs1.passed = decide (c.x > obs.x - g.speed + obs.width) := by
      rw [hform]; simp [hp]
    refine ⟨obs1, g1, hbody, hx, hw, ?_, ?_⟩
    · rw [hx, hw]
      constructor
      · rintro ⟨h1, -⟩
        rw [hpass] at h1
        exact of_decide_eq_true h1
      · intro h
        have h1 : obs1.passed = true := by rw [hpass]; exact decide_eq_true h
        refine ⟨h1, ?_⟩
        rw [hscore, if_pos ⟨hp, h1⟩]
    · intro h
      rw [hx, hw] at h
      have h1 : obs1.passed = false := by rw [hpass]; exact decide_eq_false h
      refine ⟨h1, ?_⟩
      rw [hscore, if_neg (by simp [h1])]
      rfl
  · obtain ⟨g3, g1, tr, h3, htr, hup, -, hscore, -, -⟩ := update_spec g c hc
    obtain ⟨g3', h3', -, hs, -, -, hcard3, -⟩ := beforeObstacles_spec g c hc
    have : g3' = g3 := Option.some.inj (h3'.symm.trans h3)
    subst this
    refine ⟨g1, tr, hup, htr, by rw [hscore, hs], ?_⟩
    intro p hp hfalse
    have htr3 : forEachTrace g3'.obstacles.length 0 g3' = some (g1, tr) := by
      simpa only [updateTrace, h3] using htr
    obtain ⟨-, hpass⟩ := forEachTrace_visits c.x g3'.obstacles.length 0 g3' g1 tr
      ⟨cardAfterPhysics c, hcard3, rfl⟩ htr3 p hp
    rw [hpass, hfalse]
    simp

/-- Witness for C12 amended: the tick from `passingState`, in which the first
obstacle moves to `x = -12.2` and the left edge `50` of the card is past its right
edge `47.8`. -/
theorem update_scoring_trigger_witness :
    passingState.card = some (sampleCard 50 200) ∧
    ∃ (obs1 : Obstacle) (g1 : Game),
      obstacleBody (sampleObstacle (-10) 100 false) passingState = some (obs1, g1) ∧
      obs1.x = -(61 / 5) ∧ obs1.passed = true ∧ g1.score = 5 := by
  refine ⟨rfl, ?_⟩
  obtain ⟨obs1, g1, h1, h2, h3, h4, -⟩ :=
    (update_scoring_trigger passingState (sampleCard 50 200) rfl).1
      (sampleObstacle (-10) 100 false) rfl
  have hx : obs1.x = -(61 / 5) := by
    rw [h2]; norm_num [sampleObstacle, passingState, runningGame]
  have hw : obs1.width = 60 := by rw [h3]; rfl
  obtain ⟨h5, h6⟩ := h4.mpr (by rw [hx, hw]; norm_num [sampleCard])
  exact ⟨obs1, g1, h1, hx, h5, by rw [h6]; rfl⟩

/-! ## Removal during the obstacle pass -/

/-- C11: the code at the failing input `skipState`. The obstacle pass starts with
two obstacles. The first one is moved by the speed `2.2` to `x = -60.6`, so
`x + width < 0` and `splice(index, 1)` removes it; the second obstacle thereby
moves to index 0, which `forEach` has already left, and index 1 is no longer
present. The pass makes a single visit, and the second obstacle ends the tick
unmoved at `x = 205.6` instead of `203.4`, without collision test or scoring
test. -/
theorem update_skips_obstacle_after_removed :
    skipState.card = some (sampleCard 50 200) ∧ skipState.speed = 22 / 10 ∧
    skipState.obstacles =
      [sampleObstacle (-(292 / 5)) 100 true, sampleObstacle (1028 / 5) 120 false] ∧
    ∃ (g1 : Game) (tr : List (Obstacle × Obstacle)),
      update skipState = some g1 ∧ updateTrace skipState = some (g1, tr) ∧
      tr = [(sampleObstacle (-(292 / 5)) 100 true, sampleObstacle (-(303 / 5)) 100 true)] ∧
      g1.obstacles = [sampleObstacle (1028 / 5) 120 false] ∧
      ¬ (∃ o ∈ g1.obstacles, o.x = 1028 / 5 - skipState.speed) := by
  refine ⟨rfl, rfl, rfl, ?_⟩
  obtain ⟨g3, g1, tr, -, htr, hup, -, -, -, -⟩ :=
    update_spec skipState (sampleCard 50 200) rfl
  have h : (updateTrace skipState).map (fun r => (r.1.obstacles, r.2)) =
      some ([sampleObstacle (1028 / 5) 120 false],
        [(sampleObstacle (-(292 / 5)) 100 true, sampleObstacle (-(303 / 5)) 100 true)]) := by
    norm_num [updateTrace, beforeObstacles, skipState, runningGame, sampleCard,
      sampleObstacle, forEachTrace, obstacleCallback, obstacleBody, checkCollision,
      changeCardSuit, mathRandom, gameOver]
  rw [htr] at h
  simp only [Option.map_some', Option.some.injEq, Prod.mk.injEq] at h
  refine ⟨g1, tr, hup, htr, h.2, h.1, ?_⟩
  rw [h.1]
  norm_num [sampleObstacle, skipState, runningGame]

/-! ## The obstacle pass: what is stored in the sequence -/

/-- Replacing the element at position `k` of a list: up to order, the old element
is exchanged for the new one. -/
theorem set_perm_swap (l : List Obstacle) (k : Nat) (obs a : Obstacle)
    (hk : l[k]? = some obs) : (obs :: l.set k a).Perm (a :: l) := by
  obtain ⟨hlt, hget⟩ := List.getElem?_eq_some_iff.mp hk
  have hl : l = l.take k ++ obs :: l.drop (k + 1) := by
    conv_lhs => rw [← List.take_append_drop k l, List.drop_eq_getElem_cons hlt, hget]
  rw [List.set_eq_take_append_cons_drop, if_pos hlt]
  have h1 : (obs :: (l.take k ++ a :: l.drop (k + 1))).Perm
      (obs :: a :: (l.take k ++ l.drop (k + 1))) := List.Perm.cons obs List.perm_middle
  have h2 : (a :: l).Perm (a :: obs :: (l.take k ++ l.drop (k + 1))) := by
    conv_lhs => rw [hl]
    exact List.Perm.cons a List.perm_middle
  exact h1.trans ((List.Perm.swap a obs _).trans h2.symm)

/-- Removing the element at position `k` of a list: up to order, the list is the
removed element and the rest. -/
theorem eraseIdx_perm_cons (l : List Obstacle) (k : Nat) (obs a : Obstacle)
    (hk : l[k]? = some obs) : (obs :: (l.set k a).eraseIdx k).Perm l := by
  obtain ⟨hlt, hget⟩ := List.getElem?_eq_some_iff.mp hk
  have hl : l = l.take k ++ obs :: l.drop (k + 1) := by
    conv_lhs => rw [← List.take_append_drop k l, List.drop_eq_getElem_cons hlt, hget]
  have he : (l.set k a).eraseIdx k = l.take k ++ l.drop (k + 1) := by
    rw [List.eraseIdx_eq_take_drop_succ, List.drop_set_of_lt a l (Nat.lt_succ_self k),
      List.set_eq_take_append_cons_drop, if_pos hlt]
    congr 1
    rw [List.take_append_of_le_length (by rw [List.length_take]; omega)]
    rw [List.take_take]
    simp
  rw [he]
  conv_rhs => rw [hl]
  exact List.perm_middle.symm

/-- One step of the ghost trace on a present index, unfolded: the callback result,
the visit and the rest of the pass. -/
theorem forEachTrace_step (n k : Nat) (g g1 : Game) (tr : List (Obstacle × Obstacle))
    (obs : Obstacle) (hc : g.card.isSome = true) (hk : g.obstacles[k]? = some obs)
    (h : forEachTrace (n + 1) k g = some (g1, tr)) :
    ∃ (obs1 : Obstacle) (g2 : Game) (tr1 : List (Obstacle × Obstacle)),
      tr = (obs, obs1) :: tr1 ∧ forEachTrace n (k + 1) g2 = some (g1, tr1) ∧
      g2.card.isSome = true ∧ (obs.passed = true → obs1.passed = true) ∧
      g2.obstacles = (if leftField obs1 = true
        then (g.obstacles.set k obs1).eraseIdx k else g.obstacles.set k obs1) := by
  obtain ⟨c, hcard⟩ := Option.isSome_iff_exists.mp hc
  obtain ⟨obs1, gb, g2, hbody, hcb, hev, -, hpass, hobs⟩ :=
    obstacleCallback_spec obs k g c hcard
  simp only [forEachTrace, hk, hbody, hcb] at h
  cases hrec : forEachTrace n (k + 1) g2 with
  | none => rw [hrec] at h; simp at h
  | some res =>
    obtain ⟨g4, tr1⟩ := res
    rw [hrec] at h
    simp only [Option.some.injEq, Prod.mk.injEq] at h
    refine ⟨obs1, g2, tr1, h.2.symm, h.1 ▸ hrec, hev.card_isSome hc, hpass, ?_⟩
    rw [hobs]
    simp [leftField]

/-- The obstacle pass keeps the books: up to order, the final sequence together
with the visited obstacles as received and the visit results that were removed is
the initial sequence together with the visit results. So an obstacle that is not
visited is kept as it is, and a visited one is replaced by its visit result or
removed. -/
theorem forEachTrace_perm (n : Nat) : ∀ (k : Nat) (g g1 : Game)
    (tr : List (Obstacle × Obstacle)), g.card.isSome = true →
    forEachTrace n k g = some (g1, tr) →
    (g1.obstacles ++ tr.map Prod.fst ++ (tr.map Prod.snd).filter leftField).Perm
      (g.obstacles ++ tr.map Prod.snd) := by
  induction n with
  | zero =>
    intro k g g1 tr _ h
    simp only [forEachTrace, Option.some.injEq, Prod.mk.injEq] at h
    rw [← h.1, ← h.2]
    simp
  | succ n ih =>
    intro k g g1 tr hc h
    cases hk : g.obstacles[k]? with
    | none =>
      simp only [forEachTrace, hk] at h
      exact ih (k + 1) g g1 tr hc h
    | some obs =>
      obtain ⟨obs1, g2, tr1, htr, hrec, hc2, -, hobs⟩ := forEachTrace_step n k g g1 tr obs hc hk h
      have hih := ih (k + 1) g2 g1 tr1 hc2 hrec
      rw [htr]
      simp only [List.map_cons, List.filter_cons]
      by_cases hrem : leftField obs1 = true
      · rw [if_pos hrem] at hobs ⊢
        rw [hobs] at hih
        have hswap := eraseIdx_perm_cons g.obstacles k obs obs1 hk
        rw [← Multiset.coe_eq_coe] at hih hswap ⊢
        simp only [← Multiset.coe_add, ← Multiset.cons_coe, ← Multiset.singleton_add] at hih hswap ⊢
        rw [← hswap]
        calc (g1.obstacles : Multiset Obstacle) + ({obs} + ↑(tr1.map Prod.fst)) +
              ({obs1} + ↑((tr1.map Prod.snd).filter leftField))
            = {obs} + {obs1} + ((g1.obstacles : Multiset Obstacle) + ↑(tr1.map Prod.fst) +
              ↑((tr1.map Prod.snd).filter leftField)) := by abel
          _ = {obs} + {obs1} + (↑((g.obstacles.set k obs1).eraseIdx k) +
              ↑(tr1.map Prod.snd)) := by rw [hih]
          _ = _ := by abel
      · rw [if_neg hrem] at hobs ⊢
        rw [hobs] at hih
        have hswap := set_perm_swap g.obstacles k obs obs1 hk
        rw [← Multiset.coe_eq_coe] at hih hswap ⊢
        simp only [← Multiset.coe_add, ← Multiset.cons_coe, ← Multiset.singleton_add] at hih hswap ⊢
        calc (g1.obstacles : Multiset Obstacle) + ({obs} + ↑(tr1.map Prod.fst)) +
              ↑((tr1.map Prod.snd).filter leftField)
            = {obs} + ((g1.obstacles : Multiset Obstacle) + ↑(tr1.map Prod.fst) +
              ↑((tr1.map Prod.snd).filter leftField)) := by abel
          _ = ({obs} + ↑(g.obstacles.set k obs1)) + ↑(tr1.map Prod.snd) := by
              rw [hih]; abel
          _ = ({obs1} + ↑g.obstacles) + ↑(tr1.map Prod.snd) := by rw [hswap]
          _ = _ := by abel

/-- The obstacle pass from index `k` does not touch the positions before `k`. -/
theorem forEachTrace_prefix (n : Nat) : ∀ (k : Nat) (g g1 : Game)
    (tr : List (Obstacle × Obstacle)), g.card.isSome = true →
    forEachTrace n k g = some (g1, tr) →
    ∀ i : Nat, i < k → g1.obstacles[i]? = g.obstacles[i]? := by
  induction n with
  | zero =>
    intro k g g1 tr _ h i _
    simp only [forEachTrace, Option.some.injEq, Prod.mk.injEq] at h
    rw [← h.1]
  | succ n ih =>
    intro k g g1 tr hc h i hi
    cases hk : g.obstacles[k]? with
    | none =>
      simp only [forEachTrace, hk] at h
      exact ih (k + 1) g g1 tr hc h i (by omega)
    | some obs =>
      obtain ⟨obs1, g2, tr1, -, hrec, hc2, -, hobs⟩ := forEachTrace_step n k g g1 tr obs hc hk h
      rw [ih (k + 1) g2 g1 tr1 hc2 hrec i (by omega), hobs]
      split_ifs
      · rw [List.getElem?_eraseIdx_of_lt _ _ _ hi, List.getElem?_set_ne (by omega)]
      · rw [List.getElem?_set_ne (by omega)]

/-- The result of a visit is stored: unless the visit removed the obstacle from
the sequence, the obstacle as the callback left it is in the final sequence. -/
theorem forEachTrace_stored (n : Nat) : ∀ (k : Nat) (g g1 : Game)
    (tr : List (Obstacle × Obstacle)), g.card.isSome = true →
    forEachTrace n k g = some (g1, tr) →
    ∀ p ∈ tr, leftField p.2 = false → p.2 ∈ g1.obstacles := by
  induction n with
  | zero =>
    intro k g g1 tr _ h p hp
    simp only [forEachTrace, Option.some.injEq, Prod.mk.injEq] at h
    rw [← h.2] at hp
    simp at hp
  | succ n ih =>
    intro k g g1 tr hc h p hp hkeep
    cases hk : g.obstacles[k]? with
    | none =>
      simp only [forEachTrace, hk] at h
      exact ih (k + 1) g g1 tr hc h p hp hkeep
    | some obs =>
      obtain ⟨obs1, g2, tr1, htr, hrec, hc2, -, hobs⟩ := forEachTrace_step n k g g1 tr obs hc hk h
      rw [htr] at hp
      rcases List.mem_cons.mp hp with hp | hp
      · subst hp
        have hlt := (List.getElem?_eq_some_iff.mp hk).1
        have h2 : g2.obstacles[k]? = some obs1 := by
          rw [hobs, if_neg (by simp [hkeep])]
          exact List.getElem?_set_self hlt
        have h1 := forEachTrace_prefix n (k + 1) g2 g1 tr1 hc2 hrec k (Nat.lt_succ_self k)
        exact List.getElem?_mem (h1.trans h2)
      · exact ih (k + 1) g2 g1 tr1 hc2 hrec p hp hkeep

/-- Along a list of visits that never lower a flag, the unpassed obstacles received
are the unpassed obstacles left plus the raised flags. -/
theorem unpassedCount_visits (tr : List (Obstacle × Obstacle))
    (hmono : ∀ p ∈ tr, p.1.passed = true → p.2.passed = true) :
    unpassedCount (tr.map Prod.fst) =
      unpassedCount (tr.map Prod.snd) + (tr.filter flagRaised).length := by
  induction tr with
  | nil => rfl
  | cons p tr ih =>
    have ih1 := ih (fun q hq => hmono q (List.mem_cons_of_mem _ hq))
    have hp := hmono p (List.mem_cons_self _ _)
    simp only [unpassedCount, List.map_cons, List.countP_cons, List.filter_cons, flagRaised]
      at ih1 ⊢
    rcases Bool.eq_false_or_eq_true p.1.passed with h1 | h1
    · have h2 := hp h1
      simp [h1, h2, ih1]
    · rcases Bool.eq_false_or_eq_true p.2.passed with h2 | h2
      · simp [h1, h2, ih1]
        omega
      · simp [h1, h2, ih1]
        omega

/-- The obstacle pass conserves the sum of the score and the number of unpassed
obstacles, apart from obstacles that are removed while still unpassed. -/
theorem forEachTrace_count (n k : Nat) (g g1 : Game) (tr : List (Obstacle × Obstacle))
    (hc : g.card.isSome = true) (h : forEachTrace n k g = some (g1, tr)) :
    g1.score + unpassedCount g1.obstacles +
        unpassedCount ((tr.map Prod.snd).filter leftField) =
      g.score + unpassedCount g.obstacles := by
  obtain ⟨g1', tr', h1, -, -, hscore, hvis, -⟩ := forEachTrace_spec n k g hc
  rw [h] at h1
  simp only [Option.some.injEq, Prod.mk.injEq] at h1
  obtain ⟨hg, ht⟩ := h1
  subst hg; subst ht
  have hperm := (forEachTrace_perm n k g g1 tr hc h).countP_eq (fun o => !o.passed)
  have hcount := unpassedCount_visits tr (fun p hp => (hvis p hp).2)
  simp only [List.countP_append] at hperm
  simp only [unpassedCount] at hcount ⊢
  rw [hscore]
  omega

/-- The part of `update()` before the obstacle pass adds one unpassed obstacle to
the sequence exactly in the ticks whose frame number is a multiple of 120. -/
theorem beforeObstacles_spawn (g : Game) (c : Card) (hc : g.card = some c) :
    ∃ g3 : Game, beforeObstacles g = some g3 ∧
      unpassedCount g3.obstacles =
        unpassedCount g.obstacles + (if (g.frames + 1) % 120 = 0 then 1 else 0) := by
  unfold beforeObstacles
  simp only [hc]
  set g1 : Game := { g with frames := g.frames + 1, card := some (cardAfterPhysics c) } with hg1
  change ∃ g3 : Game,
    some (if (if hitsBoundary g c then gameOver g1 else g1).frames % 120 = 0
      then spawnObstacle (if hitsBoundary g c then gameOver g1 else g1)
      else (if hitsBoundary g c then gameOver g1 else g1)) = some g3 ∧ _
  set g2 : Game := if hitsBoundary g c then gameOver g1 else g1 with hg2
  have h2 : g2.frames = g.frames + 1 ∧ g2.obstacles = g.obstacles := by
    rw [hg2]
    split_ifs
    · exact ⟨(gameOver_evolves g1).frames_eq, (gameOver_flags g1).2.2.2.2.1⟩
    · exact ⟨rfl, rfl⟩
  rw [h2.1]
  split_ifs with hsp
  · refine ⟨_, rfl, ?_⟩
    rw [spawnObstacle_obstacles, h2.2]
    simp [unpassedCount]
  · exact ⟨_, rfl, by rw [h2.2]; rfl⟩

/-- One tick conserves the sum of the score and the number of unpassed obstacles
of the sequence, apart from the obstacle spawned in a tick whose frame number is a
multiple of 120 and from obstacles removed while still unpassed. -/
theorem update_count (g : Game) (c : Card) (hc : g.card = some c) :
    ∃ (g1 : Game) (tr : List (Obstacle × Obstacle)),
      update g = some g1 ∧ updateTrace g = some (g1, tr) ∧
      g1.frames = g.frames + 1 ∧ g1.card.isSome = true ∧
      g1.score + unpassedCount g1.obstacles +
          unpassedCount ((tr.map Prod.snd).filter leftField) =
        g.score + unpassedCount g.obstacles + (if (g.frames + 1) % 120 = 0 then 1 else 0) := by
  obtain ⟨g3, g1, tr, h3, htr, hup, hev, -, -, -⟩ := update_spec g c hc
  obtain ⟨g3', h3', hfr, hs, -, -, hcard3, -⟩ := beforeObstacles_spec g c hc
  have : g3' = g3 := Option.some.inj (h3'.symm.trans h3)
  subst this
  obtain ⟨g3'', h3'', hsp⟩ := beforeObstacles_spawn g c hc
  have : g3'' = g3' := Option.some.inj (h3''.symm.trans h3)
  subst this
  have hc3 : g3''.card.isSome = true := by rw [hcard3]; rfl
  have htr3 : forEachTrace g3''.obstacles.length 0 g3'' = some (g1, tr) := by
    simpa only [updateTrace, h3] using htr
  have hcount := forEachTrace_count g3''.obstacles.length 0 g3'' g1 tr hc3 htr3
  refine ⟨g1, tr, hup, htr, hev.frames_eq.trans hfr, hev.card_isSome hc3, ?_⟩
  rw [hcount, hs, hsp]
  ring

/-- Over any number of ticks from a state with a card, the score and the number of
unpassed obstacles in the sequence together grow by at most the number of obstacles
spawned, which is the number of multiples of 120 the frame counter reaches. -/
theorem ticks_score_bound (n : Nat) : ∀ g : Game, g.card.isSome = true →
    ∃ gn : Game, ticks n g = some gn ∧ gn.frames = g.frames + n ∧
      gn.score + unpassedCount gn.obstacles + g.frames / 120 ≤
        g.score + unpassedCount g.obstacles + gn.frames / 120 := by
  induction n with
  | zero => intro g _; exact ⟨g, rfl, rfl, le_refl _⟩
  | succ n ih =>
    intro g hc
    obtain ⟨c, hcard⟩ := Option.isSome_iff_exists.mp hc
    obtain ⟨g1, tr, hup, -, hfr, hc1, hcount⟩ := update_count g c hcard
    obtain ⟨gn, hn, hfrn, hle⟩ := ih g1 hc1
    refine ⟨gn, by simp only [ticks, hup]; exact hn, by rw [hfrn, hfr]; ring, ?_⟩
    have hdiv : (g.frames + 1) / 120 = g.frames / 120 +
        (if (g.frames + 1) % 120 = 0 then 1 else 0) := by
      split_ifs with h <;> omega
    rw [hfr, hdiv] at hle
    omega

/-! ## Scoring: once per obstacle -/

/-- C3: in every tick from a state with a card, `update` returns and the score
grows by exactly the number of obstacle visits in which the `passed` flag went from
false to true; no visit turns a true flag into false; the visited obstacles form a
sublist of the sequence as it was when the obstacle pass started (the old sequence,
possibly with one freshly spawned unpassed obstacle), so no obstacle is visited
twice; every obstacle of the final sequence is an untouched one or the result of a
visit; and the score never decreases, over one tick or over any number of ticks.
The raised flag is stored: the result of every visit is in the final sequence
unless the visit removed the obstacle, and up to order the final sequence is the
initial one with each visited obstacle replaced by its visit result or removed.
Hence a point uses up an unpassed obstacle: in one tick the score plus the number
of unpassed obstacles in the sequence changes only by the obstacle spawned and by
obstacles removed while unpassed, and over any number of ticks the score plus the
number of unpassed obstacles grows by at most the number of obstacles spawned, so
no obstacle is scored more than once. -/
theorem update_scores_each_obstacle_once (g : Game) (c : Card) (hc : g.card = some c) :
    ∃ (g3 g1 : Game) (tr : List (Obstacle × Obstacle)),
      update g = some g1 ∧ updateTrace g = some (g1, tr) ∧ beforeObstacles g = some g3 ∧
      (g3.obstacles = g.obstacles ∨
        ∃ o : Obstacle, g3.obstacles = g.obstacles ++ [o] ∧ o.passed = false) ∧
      g1.score = g.score + (tr.filter flagRaised).length ∧
      (∀ p ∈ tr, flagRaised p = true ↔ (p.1.passed = false ∧ p.2.passed = true)) ∧
      (∀ p ∈ tr, p.1.passed = true → p.2.passed = true) ∧
      (tr.map Prod.fst).Sublist g3.obstacles ∧
      (∀ o ∈ g1.obstacles, o ∈ g3.obstacles ∨ ∃ p ∈ tr, p.2 = o) ∧
      g.score ≤ g1.score ∧
      (∀ n : Nat, ∃ gn : Game, ticks n g = some gn ∧ g.score ≤ gn.score) ∧
      (∀ p ∈ tr, leftField p.2 = false → p.2 ∈ g1.obstacles) ∧
      (g1.obstacles ++ tr.map Prod.fst ++ (tr.map Prod.snd).filter leftField).Perm
        (g3.obstacles ++ tr.map Prod.snd) ∧
      g1.score + unpassedCount g1.obstacles +
          unpassedCount ((tr.map Prod.snd).filter leftField) =
        g.score + unpassedCount g.obstacles +
          (if (g.frames + 1) % 120 = 0 then 1 else 0) ∧
      (∀ n : Nat, ∃ gn : Game, ticks n g = some gn ∧ gn.frames = g.frames + n ∧
        g.score ≤ gn.score ∧
        gn.score + unpassedCount gn.obstacles + g.frames / 120 ≤
          g.score + unpassedCount g.obstacles + gn.frames / 120) := by
  obtain ⟨g3, g1, tr, h3, htr, hup, hev, hscore, hvis, hfin⟩ := update_spec g c hc
  obtain ⟨g3', h3', -, hs, -, -, hcard3, -, -, hsp⟩ := beforeObstacles_spec g c hc
  have : g3' = g3 := Option.some.inj (h3'.symm.trans h3)
  subst this
  have hsome : g.card.isSome = true := by rw [hc]; rfl
  have hc3 : g3'.card.isSome = true := by rw [hcard3]; rfl
  have htr3 : forEachTrace g3'.obstacles.length 0 g3' = some (g1, tr) := by
    simpa only [updateTrace, h3] using htr
  obtain ⟨g1', tr', hup', htr', -, -, hcount⟩ := update_count g c hc
  have hpair : (g1', tr') = (g1, tr) := Option.some.inj (htr'.symm.trans htr)
  simp only [Prod.mk.injEq] at hpair
  obtain ⟨e1, e2⟩ := hpair
  subst e1; subst e2
  refine ⟨g3', g1', tr', hup, htr, h3, hsp, by rw [hscore, hs], ?_, fun p hp => (hvis p hp).2,
    ?_, hfin, hs ▸ hev.score_le, fun n => ticks_score_le n g hsome,
    forEachTrace_stored g3'.obstacles.length 0 g3' g1' tr' hc3 htr3,
    forEachTrace_perm g3'.obstacles.length 0 g3' g1' tr' hc3 htr3, hcount, ?_⟩
  · intro p _
    simp [flagRaised]
  · simpa using forEachTrace_sublist g3'.obstacles.length 0 g3' g1' tr' hc3 htr3
  · intro n
    obtain ⟨gn, hn, hfr, hbound⟩ := ticks_score_bound n g hsome
    obtain ⟨gn', hn', hle⟩ := ticks_score_le n g hsome
    have : gn' = gn := Option.some.inj (hn'.symm.trans hn)
    subst this
    exact ⟨gn', hn, hfr, hle, hbound⟩

/-- Witness for C3: from `passingState`, with score 4 and two unpassed obstacles,
the first tick scores the first obstacle and stores its raised flag, and after
three ticks the score is still 5: the obstacle is not scored again. -/
theorem update_scores_each_obstacle_once_witness :
    passingState.card = some (sampleCard 50 200) ∧ passingState.score = 4 ∧
    (∃ (g1 : Game) (tr : List (Obstacle × Obstacle)),
      update passingState = some g1 ∧ updateTrace passingState = some (g1, tr) ∧
      g1.score = passingState.score + (tr.filter flagRaised).length ∧
      g1.score = 5 ∧ sampleObstacle (-(61 / 5)) 100 true ∈ g1.obstacles) ∧
    ∃ g3 : Game, ticks 3 passingState = some g3 ∧ g3.frames = 752 ∧ g3.score = 5 := by
  obtain ⟨g0, g1, tr, h1, h2, -, -, h3, -, -, -, -, -, -, h4, -, -, h5⟩ :=
    update_scores_each_obstacle_once passingState (sampleCard 50 200) rfl
  refine ⟨rfl, rfl, ⟨g1, tr, h1, h2, h3, ?_, ?_⟩, ?_⟩
  · have hs : (update passingState).map (fun g => g.score) = some 5 := by
      norm_num [update, passingState, runningGame, sampleCard, sampleObstacle, forEachFrom,
        obstacleCallback, obstacleBody, checkCollision, changeCardSuit, mathRandom, gameOver]
    rw [h1] at hs
    simpa using hs
  · have ht : (updateTrace passingState).map (fun r => r.2) = some
        [(sampleObstacle (-10) 100 false, sampleObstacle (-(61 / 5)) 100 true),
         (sampleObstacle 254 120 false, sampleObstacle (2517 / 10) 120 false)] := by
      norm_num [updateTrace, beforeObstacles, passingState, runningGame, sampleCard,
        sampleObstacle, forEachTrace, obstacleCallback, obstacleBody, checkCollision,
        changeCardSuit, mathRandom, gameOver]
    rw [h2] at ht
    simp only [Option.map_some', Option.some.injEq] at ht
    refine h4 (sampleObstacle (-10) 100 false, sampleObstacle (-(61 / 5)) 100 true) ?_ ?_
    · rw [ht]; exact List.mem_cons_self _ _
    · norm_num [leftField, sampleObstacle]
  · obtain ⟨g3, h6, h7, -, -⟩ := h5 3
    have hs : (ticks 3 passingState).map (fun g => g.score) = some 5 := by
      norm_num [ticks, update, passingState, runningGame, sampleCard, sampleObstacle,
        forEachFrom, obstacleCallback, obstacleBody, checkCollision, changeCardSuit,
        mathRandom, gameOver]
    rw [h6] at hs
    exact ⟨g3, h6, by rw [h7]; rfl, by simpa using hs⟩

end FlappyCard
